import Mathlib

/-!
# udpproxy: a shallow embedding of the relay core and of the plugin glue

The development follows the Go sources

* `server/sever.go`    (`ProxyServer`, `ServePacket`, `handleClosedUDPConnections`, `dialUDP`)
* `server/udpproxy.go` (`udpProxy`, `WaitSingle`, `Close`, `closeConn`)
* `server/plugin.go`   (`Config`, `caddyContext`, `InspectServerBlocks`, `MakeServers`, `GetConfig`)
* `directive/alias.go` (`setupReplyAddrAliases`)

Effects on the outside world (sockets, the termination channel, spawned readers) are
recorded as a chronological list of `Event`s.  Everything the operating system decides
(whether a dial succeeds, which local address a socket gets, whether a write fails) is read
from an `Env`, whose answers may depend on the whole history.  A Go panic is an explicit
outcome.  Go maps are association lists read through `Map.get`.  The goroutines of the
dispatch loop and of the reaper are run as interleavings of their steps (`Step`).
-/

namespace UDPProxy

/-! ## Go maps with string keys -/

/-- Lookup `m[key]` of a Go map: the value and `found`, as an `Option`. -/
def Map.get {β : Type} : List (String × β) → String → Option β
  | [], _ => none
  | (k, v) :: m, key => if k = key then some v else Map.get m key

/-- Removal `delete(m, key)` of a Go map. -/
def Map.delete {β : Type} (m : List (String × β)) (key : String) : List (String × β) :=
  m.filter (fun e => e.1 ≠ key)

/-- Assignment `m[key] = v` of a Go map: any older entry for `key` is replaced. -/
def Map.set {β : Type} (m : List (String × β)) (key : String) (v : β) : List (String × β) :=
  (key, v) :: Map.delete m key

/-! ## Data model of the relay core -/

/-- Go `error` values, identified by their message. -/
abbrev Error := String

/-- Datagram payloads, `[]byte`. -/
abbrev Payload := List UInt8

/-- A `*net.UDPConn`: the identity of the socket together with what `LocalAddr().String()`
and `RemoteAddr().String()` report for it. -/
structure UDPConn where
  id : Nat
  laddr : String
  raddr : String
deriving DecidableEq, Repr

/-- A `net.Conn` as returned by `Dialer.Dial`; `dialUDP` type-asserts it to `*net.UDPConn`. -/
inductive Conn where
  | udp (c : UDPConn)
  | other (id : Nat)
deriving DecidableEq, Repr

/-- The struct `udpProxy` of `udpproxy.go`.  The fields `lconn` and `closeChan` always hold the
server's single listening socket and its single termination channel, so they are not stored:
a write to `lconn` is the event `writtenTo`, a send on `closeChan` the event `notified`. -/
structure udpProxy where
  laddr : String
  rconn : UDPConn
  aconns : List UDPConn
deriving DecidableEq, Repr

/-- The struct `Config` of `plugin.go`. -/
structure Config where
  Parameters : List String
  Tokens : List (String × List String)
  ReplyAddrAliases : List String
deriving DecidableEq, Repr

/-- The struct `ProxyServer` of `sever.go`; `udpPacketConn` and `udpClientClosed` are the
listening socket and the termination channel (see `udpProxy`). -/
structure ProxyServer where
  LocalAddr : String
  RemoteAddr : String
  config : Config
  udpClients : List (String × udpProxy)
deriving DecidableEq, Repr

/-- Observable effects, in the order they happen. -/
inductive Event where
  /-- The call `s.udpPacketConn.Close()`. -/
  | listenerClosed
  /-- A call `dialUDP(l, r)`. -/
  | dialCall (l r : String)
  /-- The call `d.Dial` inside `dialUDP` returned this open connection. -/
  | opened (c : Conn)
  /-- The call `c.Write(p)`. -/
  | written (c : UDPConn) (p : Payload)
  /-- The call `c.Close()` made by `closeConn`. -/
  | closed (c : UDPConn)
  /-- The statement `go conn.Wait()`. -/
  | waiting (p : udpProxy)
  /-- The call `lconn.WriteTo(p, addr)`. -/
  | writtenTo (p : Payload) (addr : String)
  /-- The send `closeChan <- clientAddr`. -/
  | notified (clientAddr : String)
deriving DecidableEq, Repr

/-- What the network stack answers; every answer may depend on the history so far. -/
structure Env where
  /-- Models `net.ResolveUDPAddr("udp", a)`: the resolved address in `String()` form. -/
  ResolveUDPAddr : List Event → String → Except Error String
  /-- Models `Dialer.Dial` with the given `LocalAddr` (`none` is `nil`) and remote address. -/
  Dial : List Event → Option String → String → Except Error Conn
  /-- Models `conn.Write(p)`: `none` is a nil error. -/
  Write : List Event → UDPConn → Payload → Option Error
  /-- Models `lconn.WriteTo(p, addr)`: `none` is a nil error. -/
  WriteTo : List Event → Payload → String → Option Error

/-- The server together with the effects performed so far. -/
structure Sys where
  srv : ProxyServer
  trace : List Event
deriving DecidableEq, Repr

/-- The messages written to remote connections, in order: the `written` events of a trace. -/
def writesOf : List Event → List (UDPConn × Payload)
  | [] => []
  | Event.written c p :: tr => (c, p) :: writesOf tr
  | _ :: tr => writesOf tr

/-- The sockets a trace leaves open, given those open before it: a UDP connection returned by
`d.Dial` is open until a `Close` call on it. -/
def openConns : List UDPConn → List Event → List UDPConn
  | acc, [] => acc
  | acc, Event.opened (Conn.udp c) :: tr => openConns (acc ++ [c]) tr
  | acc, Event.closed c :: tr => openConns (acc.filter (fun d => d ≠ c)) tr
  | acc, _ :: tr => openConns acc tr

/-! ## `dialUDP` (sever.go, lines 160-200) -/

/-- The function `dialUDP(l, r)`: resolve `l` unless it is empty, resolve `r`, dial, and
type-assert the connection. -/
def dialUDP (env : Env) (tr : List Event) (l r : String) : Except Error UDPConn × List Event :=
  let tr := tr ++ [Event.dialCall l r]
  match (if l ≠ "" then (env.ResolveUDPAddr tr l).map some else Except.ok none) with
  | .error err => (.error err, tr)
  | .ok laddr =>
    match env.ResolveUDPAddr tr r with
    | .error err => (.error err, tr)
    | .ok raddr =>
      match env.Dial tr laddr raddr with
      | .error err => (.error err, tr)
      | .ok conn =>
        match conn with
        | .udp udpConn => (.ok udpConn, tr ++ [Event.opened conn])
        | .other _ =>
          (.error "could not convert the connection to an UDP connection",
            tr ++ [Event.opened conn])

/-! ## `ServePacket` (sever.go, lines 70-123) -/

/-- What arrives at the listening socket when `ReadFrom` is called: a datagram, or a failure
with the values the `net.PacketConn` returns alongside the error (`addr` is `nil`, here
`none`, for a `*net.UDPConn`). -/
inductive ReadEvent where
  | datagram (sender : String) (payload : Payload)
  | failure (n : Nat) (addr : Option String) (err : Error)
deriving DecidableEq, Repr

/-- The call `ReadFrom(buf)`: a datagram is copied into `buf` up to the length of `buf` (the
rest of the datagram is discarded) and the number of bytes copied is returned.  The result is
`((nr, addr, err), buf)` with the new contents of `buf`. -/
def ReadFrom (buf : Payload) : ReadEvent → (Nat × Option String × Option Error) × Payload
  | .datagram sender payload =>
    let n := min payload.length buf.length
    ((n, some sender, none), payload.take n ++ buf.drop n)
  | .failure n addr err => ((n, addr, some err), buf)

/-- Result of one round of the `for` loop of `ServePacket`. -/
inductive Outcome where
  /-- The loop goes round again. -/
  | next (sys : Sys) (buf : Payload)
  /-- The function `ServePacket` returned `err`. -/
  | returned (err : Error) (sys : Sys)
  /-- A Go run-time panic. -/
  | panicked (sys : Sys)
deriving DecidableEq, Repr

/-- The server and trace an outcome leaves behind. -/
def Outcome.sys : Outcome → Sys
  | .next sys _ => sys
  | .returned _ sys => sys
  | .panicked sys => sys

/-- The loop `for _, a := range s.config.ReplyAddrAliases` (lines 91-97): every alias is dialed
with local address `l`, the connections are appended to `acc`, the first error returns. -/
def dialAliases (env : Env) (l : String) :
    List Event → List String → List UDPConn → Except Error (List UDPConn) × List Event
  | tr, [], acc => (.ok acc, tr)
  | tr, a :: rest, acc =>
    match dialUDP env tr l a with
    | (.error err, tr1) => (.error err, tr1)
    | (.ok remoteAliasUDPConn, tr1) => dialAliases env l tr1 rest (acc ++ [remoteAliasUDPConn])

/-- Lines 85-106 of `ServePacket`: dial the primary with no local address, then the aliases
with the primary's local address, and build the `udpProxy` for client `addr`. -/
def createSession (env : Env) (s : ProxyServer) (tr : List Event) (addr : String) :
    Except Error udpProxy × List Event :=
  match dialUDP env tr "" s.RemoteAddr with
  | (.error err, tr1) => (.error err, tr1)
  | (.ok remoteUDPConn, tr1) =>
    match (if 0 < s.config.ReplyAddrAliases.length then
        dialAliases env remoteUDPConn.laddr tr1 s.config.ReplyAddrAliases []
      else (Except.ok [], tr1)) with
    | (.error err, tr2) => (.error err, tr2)
    | (.ok remoteAliasUDPConns, tr2) =>
      (.ok { laddr := addr, rconn := remoteUDPConn, aconns := remoteAliasUDPConns }, tr2)

/-- Lines 117-121 of `ServePacket`: `conn.rconn.Write(buf[0:nr])`, returning a write error.
Slicing beyond the buffer panics. -/
def forward (env : Env) (sys : Sys) (buf : Payload) (nr : Nat) (conn : udpProxy) : Outcome :=
  if nr ≤ buf.length then
    let sys1 : Sys := { sys with trace := sys.trace ++ [Event.written conn.rconn (buf.take nr)] }
    match env.Write sys.trace conn.rconn (buf.take nr) with
    | some err => .returned err sys1
    | none => .next sys1 buf
  else .panicked sys

/-- One round of the `for` loop of `ServePacket` (lines 77-122).  A read error closes the
listening socket and execution continues with the lookup; `addr.String()` on a nil `addr`
panics. -/
def ServePacketIter (env : Env) (sys : Sys) (buf : Payload) (ev : ReadEvent) : Outcome :=
  match ReadFrom buf ev with
  | ((nr, addr, err), buf) =>
    let sys : Sys :=
      if err.isSome then { sys with trace := sys.trace ++ [Event.listenerClosed] } else sys
    match addr with
    | none => .panicked sys
    | some a =>
      match Map.get sys.srv.udpClients a with
      | some conn => forward env sys buf nr conn
      | none =>
        match createSession env sys.srv sys.trace a with
        | (.error err, tr) => .returned err { sys with trace := tr }
        | (.ok conn, tr) =>
          let sys1 : Sys :=
            { srv := { sys.srv with udpClients := Map.set sys.srv.udpClients a conn },
              trace := tr ++ [Event.waiting conn] }
          forward env sys1 buf nr conn

/-! ## `handleClosedUDPConnections` (sever.go, lines 125-135) and `Close` (udpproxy.go) -/

/-- The function `closeConn`. -/
def closeConn (tr : List Event) (conn : UDPConn) : List Event :=
  tr ++ [Event.closed conn]

/-- The method `udpProxy.Close`: close `rconn`, then every alias connection in order. -/
def udpProxy.Close (p : udpProxy) (tr : List Event) : List Event :=
  p.aconns.foldl closeConn (closeConn tr p.rconn)

/-- One round of the loop of `handleClosedUDPConnections`, for the received `clientAddr`. -/
def handleClosedIter (sys : Sys) (clientAddr : String) : Sys :=
  match Map.get sys.srv.udpClients clientAddr with
  | some conn =>
    { srv := { sys.srv with udpClients := Map.delete sys.srv.udpClients clientAddr },
      trace := conn.Close sys.trace }
  | none => sys

/-! ## `ServePacket` together with the reaper it starts (sever.go, lines 70-76) -/

/-- One step of the two goroutines that `ServePacket` runs: the `for` loop completes a round
on a result of `ReadFrom`, or the reaper started by `go s.handleClosedUDPConnections()`
receives a client address from the termination channel and handles it.  Each is taken as one
atomic step; a list of steps is one interleaving of the two. -/
inductive Step where
  | read (ev : ReadEvent)
  | closed (clientAddr : String)
deriving DecidableEq, Repr

/-- The loop of `ServePacket` and the reaper run on an interleaving of their steps, until
`ServePacket` returns or panics, or the steps are used up. -/
def ServePacketRun (env : Env) : Sys → Payload → List Step → Outcome
  | sys, buf, [] => .next sys buf
  | sys, buf, .closed clientAddr :: steps =>
    ServePacketRun env (handleClosedIter sys clientAddr) buf steps
  | sys, buf, .read ev :: steps =>
    match ServePacketIter env sys buf ev with
    | .next sys1 buf1 => ServePacketRun env sys1 buf1 steps
    | out => out

/-- The buffer `make([]byte, 4096)` of `ServePacket`. -/
def serveBuf : Payload := List.replicate 4096 0

/-- The function `ServePacket`: it starts the reaper, allocates the buffer and runs the
loop. -/
def ServePacket (env : Env) (s : ProxyServer) (steps : List Step) : Outcome :=
  ServePacketRun env { srv := s, trace := [] } serveBuf steps

/-- The payloads of the datagrams read in an interleaving, in order. -/
def payloadsOf : List Step → List Payload
  | [] => []
  | .read (.datagram _ payload) :: steps => payload :: payloadsOf steps
  | _ :: steps => payloadsOf steps

/-! ## `WaitSingle` (udpproxy.go, lines 27-52) -/

/-- What `conn.Read(buf)` meets on a remote connection: a reply, or a failure. -/
inductive ConnRead where
  | reply (payload : Payload)
  | failure (n : Nat) (err : Error)
deriving DecidableEq, Repr

/-- The call `conn.Read(buf)`, as `ReadFrom` without a sender address. -/
def connRead (buf : Payload) : ConnRead → (Nat × Option Error) × Payload
  | .reply payload =>
    let n := min payload.length buf.length
    ((n, none), payload.take n ++ buf.drop n)
  | .failure n err => ((n, some err), buf)

/-- Result of one round of the loop of `WaitSingle`.  The function has no result value: it
either goes round again or returns. -/
inductive ReaderOutcome where
  | next (tr : List Event) (buf : Payload)
  | exited (tr : List Event)
  | panicked (tr : List Event)
deriving DecidableEq, Repr

/-- One round of the `for` loop of `WaitSingle` (lines 33-51).  The connection `conn` that is
read only decides which replies arrive, here `rd`. -/
def WaitSingleIter (env : Env) (p : udpProxy) (tr : List Event) (buf : Payload)
    (rd : ConnRead) : ReaderOutcome :=
  match connRead buf rd with
  | ((n, err), buf) =>
    match err with
    | some _ => .exited (tr ++ [Event.notified p.laddr])
    | none =>
      if n ≤ buf.length then
        match env.WriteTo tr (buf.take n) p.laddr with
        | some _ =>
          .exited (tr ++ [Event.writtenTo (buf.take n) p.laddr, Event.notified p.laddr])
        | none => .next (tr ++ [Event.writtenTo (buf.take n) p.laddr]) buf
      else .panicked tr

/-- The buffer `make([]byte, 32*1024)` of `WaitSingle`. -/
def waitBuf : Payload := List.replicate (32 * 1024) 0

/-- The `for` loop of `WaitSingle` run on the successive results of `conn.Read`. -/
def WaitSingleLoop (env : Env) (p : udpProxy) : List Event → Payload → List ConnRead → ReaderOutcome
  | tr, buf, [] => .next tr buf
  | tr, buf, rd :: rds =>
    match WaitSingleIter env p tr buf rd with
    | .next tr1 buf1 => WaitSingleLoop env p tr1 buf1 rds
    | out => out

/-- The function `WaitSingle`. -/
def WaitSingle (env : Env) (p : udpProxy) (tr : List Event) (rds : List ConnRead) : ReaderOutcome :=
  WaitSingleLoop env p tr waitBuf rds

/-! ## Go string functions used by plugin.go -/

/-- The function `strings.ToLower`: the rune map `unicode.ToLower`, here the argument
`toLowerRune`, applied to every rune. -/
def stringsToLower (toLowerRune : Char → Char) (s : String) : String :=
  ⟨s.data.map toLowerRune⟩

/-- Lower-casing of the ASCII letters, on which `unicode.ToLower` agrees with it. -/
def asciiToLower (c : Char) : Char :=
  if 65 ≤ c.toNat ∧ c.toNat ≤ 90 then Char.ofNat (c.toNat + 32) else c

/-- Splitting of a rune sequence at every occurrence of `sep`. -/
def splitChars (sep : Char) : List Char → List (List Char)
  | [] => [[]]
  | c :: cs =>
    if c = sep then [] :: splitChars sep cs
    else
      match splitChars sep cs with
      | [] => [[c]]
      | w :: ws => (c :: w) :: ws

/-- The function `strings.Split(s, sep)` for a separator of one rune. -/
def stringsSplit (s : String) (sep : Char) : List String :=
  (splitChars sep s.data).map String.mk

/-- The function `strings.Join(elems, sep)`. -/
def stringsJoin (elems : List String) (sep : String) : String :=
  ⟨List.intercalate sep.data (elems.map String.data)⟩

/-- Whether `sub` occurs in the rune sequence. -/
def containsChars (sub : List Char) : List Char → Bool
  | [] => sub.isEmpty
  | c :: cs => sub.isPrefixOf (c :: cs) || containsChars sub cs

/-- The function `strings.Contains(s, substr)`. -/
def stringsContains (s substr : String) : Bool :=
  containsChars substr.data s.data

/-! ## The plugin glue (plugin.go, alias.go) -/

/-- A `caddyfile.Token`. -/
structure Token where
  File : String
  Line : Nat
  Text : String
deriving DecidableEq, Repr

/-- A `caddyfile.ServerBlock`. -/
structure ServerBlock where
  Keys : List String
  Tokens : List (String × List Token)
deriving DecidableEq, Repr

/-- The type `configTokens`, a `map[string][]string`. -/
abbrev configTokens := List (String × List String)

/-- The struct `caddyContext`.  A `*Config` is an index into `heap`, the Config objects
allocated so far; `keysToConfigs` and `configs` hold such pointers. -/
structure caddyContext where
  heap : List Config
  keysToConfigs : List (String × Nat)
  configs : List Nat
deriving DecidableEq, Repr

/-- The function `newCaddyContext`. -/
def newCaddyContext : caddyContext :=
  { heap := [], keysToConfigs := [], configs := [] }

/-- Allocation `&Config{...}`: the new pointer and the extended heap. -/
def caddyContext.alloc (c : caddyContext) (config : Config) : Nat × caddyContext :=
  (c.heap.length, { c with heap := c.heap ++ [config] })

/-- The method `saveConfig`. -/
def caddyContext.saveConfig (c : caddyContext) (key : String) (config : Nat) : caddyContext :=
  { c with configs := c.configs ++ [config], keysToConfigs := Map.set c.keysToConfigs key config }

/-- Lines 72-80 of `InspectServerBlocks`: the lower-cased keys of a block joined with `~`. -/
def blockKey (toLowerRune : Char → Char) (keys : List String) : String :=
  keys.foldl
    (fun key k =>
      let k := stringsToLower toLowerRune k
      if key = "" then k else key ++ ("~" ++ k))
    ""

/-- Lines 85-91 of `InspectServerBlocks`: the texts of the tokens of every directive. -/
def tokenTexts (tokens : List (String × List Token)) : configTokens :=
  tokens.map (fun kv => (kv.1, kv.2.map Token.Text))

/-- The first loop of `InspectServerBlocks` (lines 70-93), filling `sbTokens`. -/
def gatherTokens (toLowerRune : Char → Char) (c : caddyContext) :
    List ServerBlock → List (String × configTokens) → Except Error (List (String × configTokens))
  | [], sbTokens => .ok sbTokens
  | sb :: rest, sbTokens =>
    let key := blockKey toLowerRune sb.Keys
    match Map.get c.keysToConfigs key with
    | some _ => .error ("duplicate key: " ++ key)
    | none => gatherTokens toLowerRune c rest (Map.set sbTokens key (tokenTexts sb.Tokens))

/-- Result of `InspectServerBlocks`: the error it returned, if any, with the context as the
call left it; or a run-time panic. -/
inductive Inspected where
  | ok (c : caddyContext)
  | error (err : Error) (c : caddyContext)
  | panicked
deriving DecidableEq, Repr

/-- The second loop of `InspectServerBlocks` (lines 97-117), over the entries of `sbTokens` in
the order the `range` statement visits them. -/
def buildConfigs : caddyContext → List (String × configTokens) → Inspected
  | c, [] => .ok c
  | c, (k, v) :: rest =>
    match stringsSplit k '~' with
    | [] => .panicked
    | listenType :: params =>
      if params.length = 0 then
        .error ("invalid configuration: " ++ k) c
      else if listenType = "proxy" ∧ params.length < 2 then
        .error
          "invalid configuration: proxy server block expects a source and destination address" c
      else
        let (config, c1) := c.alloc { Parameters := params, Tokens := v, ReplyAddrAliases := [] }
        buildConfigs (c1.saveConfig k config) rest

/-- The method `InspectServerBlocks`.  The order in which Go ranges over the map `sbTokens` is
not specified; `rangeOrder` is that order. -/
def InspectServerBlocks (toLowerRune : Char → Char)
    (rangeOrder : List (String × configTokens) → List (String × configTokens))
    (c : caddyContext) (serverBlocks : List ServerBlock) : Inspected :=
  match gatherTokens toLowerRune c serverBlocks [] with
  | .error err => .error err c
  | .ok sbTokens => buildConfigs c (rangeOrder sbTokens)

/-- The function `NewProxyServer`; its error result is always nil.  The server refers to its
Config, which no longer changes once servers are made, by value. -/
def NewProxyServer (l r : String) (c : Config) : ProxyServer :=
  { LocalAddr := l, RemoteAddr := r, config := c, udpClients := [] }

/-- The loop of `MakeServers` over the pointers of `c.configs`: `none` is a run-time panic
(index out of range at `Parameters[0]` or `Parameters[1]`, or a dangling pointer). -/
def makeServersLoop (heap : List Config) : List Nat → List ProxyServer → Option (List ProxyServer)
  | [], servers => some servers
  | p :: rest, servers =>
    match heap[p]? with
    | none => none
    | some config =>
      match config.Parameters[0]?, config.Parameters[1]? with
      | some l, some r => makeServersLoop heap rest (servers ++ [NewProxyServer l r config])
      | _, _ => none

/-- The method `MakeServers`; `none` is a run-time panic. -/
def MakeServers (c : caddyContext) : Option (List ProxyServer) :=
  makeServersLoop c.heap c.configs []

/-- The fields of a `caddy.Controller` that the plugin reads.  `args` are the values `c.Val()`
takes in the body of `for c.Next() { for c.NextArg() { ... } }`: the arguments of the directive
as caddy's Dispenser hands them out. -/
structure Controller where
  Key : String
  ServerBlockKeys : List String
  args : List String
deriving DecidableEq, Repr

/-- The function `GetConfig`: a `*Config`, or `none` for the nil pointer. -/
def GetConfig (ctx : caddyContext) (c : Controller) : Option Nat :=
  let key := stringsJoin c.ServerBlockKeys "~"
  if stringsContains key "proxy" then
    match Map.get ctx.keysToConfigs key with
    | some config => some config
    | none => none
  else none

/-- Result of a directive's setup function, which here always returns a nil error unless it
panics. -/
inductive SetupResult where
  | ok (ctx : caddyContext)
  | panicked
deriving DecidableEq, Repr

/-- The loops of `setupReplyAddrAliases` (lines 20-24): every argument is appended to
`config.ReplyAddrAliases`; a nil `config` is dereferenced at the first argument. -/
def appendAliases (config : Option Nat) : caddyContext → List String → SetupResult
  | ctx, [] => .ok ctx
  | ctx, v :: vs =>
    match config with
    | none => .panicked
    | some p =>
      match ctx.heap[p]? with
      | none => .panicked
      | some cfg =>
        appendAliases config
          { ctx with heap := ctx.heap.set p { cfg with ReplyAddrAliases := cfg.ReplyAddrAliases ++ [v] } }
          vs

/-- The function `setupReplyAddrAliases`. -/
def setupReplyAddrAliases (ctx : caddyContext) (c : Controller) : SetupResult :=
  let config := GetConfig ctx c
  if c.Key ≠ "proxy" then .ok ctx
  else appendAliases config ctx c.args

/-! ## Reading traces -/

/-- Whether an event is one of `dialUDP`: a call of it, or a connection it opened. -/
def Event.isDial : Event → Bool
  | .dialCall _ _ => true
  | .opened _ => true
  | _ => false

/-- The events of successful alias dials: for every alias in order, the call `dialUDP(l, a)`
and the connection it opened. -/
def aliasDialEvents (l : String) : List String → List UDPConn → List Event
  | a :: as, c :: cs =>
    Event.dialCall l a :: Event.opened (Conn.udp c) :: aliasDialEvents l as cs
  | _, _ => []

/-- That the alias connections `cs` came out of the alias dials as `dialUDP(l, a)` makes them:
at the history of each call the Dialer was given as `LocalAddr` the resolution of `l` (nil
only for an empty `l`) and as remote address the resolution of the alias, and returned the
connection. -/
def aliasDialed (env : Env) (l : String) : List Event → List String → List UDPConn → Prop
  | _, [], [] => True
  | tr, a :: as, c :: cs =>
    (∃ laddr raddr,
        (l ≠ "" → ∃ la, env.ResolveUDPAddr (tr ++ [Event.dialCall l a]) l = .ok la
          ∧ laddr = some la)
        ∧ (l = "" → laddr = none)
        ∧ env.ResolveUDPAddr (tr ++ [Event.dialCall l a]) a = .ok raddr
        ∧ env.Dial (tr ++ [Event.dialCall l a]) laddr raddr = .ok (Conn.udp c))
      ∧ aliasDialed env l (tr ++ [Event.dialCall l a, Event.opened (Conn.udp c)]) as cs
  | _, _, _ => False

/-! ## Reading server block keys -/

/-- The listen type `params[0]` of a joined key, as line 99 of `InspectServerBlocks` takes it. -/
def keyListenType (k : String) : String :=
  (stringsSplit k '~').headD ""

/-- The parameters `params[1:]` of a joined key, as line 100 takes them. -/
def keyParams (k : String) : List String :=
  (stringsSplit k '~').tail

/-- The two tests of lines 102-108 of `InspectServerBlocks` on a joined key. -/
def keyRejected (k : String) : Prop :=
  (keyParams k).length = 0 ∨ (keyListenType k = "proxy" ∧ (keyParams k).length < 2)

/-- The Config that line 111 allocates for an entry of `sbTokens`. -/
def configOf (kv : String × configTokens) : Config :=
  { Parameters := keyParams kv.1, Tokens := kv.2, ReplyAddrAliases := [] }

/-- The context an outcome of `InspectServerBlocks` leaves behind, if it did not panic. -/
def Inspected.ctx : Inspected → Option caddyContext
  | .ok c => some c
  | .error _ c => some c
  | .panicked => none

/-- A server block key that, lower-cased, is not empty and holds no `~`. -/
def plainKey (toLowerRune : Char → Char) (k : String) : Prop :=
  stringsToLower toLowerRune k ≠ "" ∧ '~' ∉ (stringsToLower toLowerRune k).data

/-- The runes that lines 77-78 of `InspectServerBlocks` append to a non-empty key for the
remaining keys of a block. -/
def keyTail (toLowerRune : Char → Char) : List String → List Char
  | [] => []
  | k :: ks => '~' :: ((stringsToLower toLowerRune k).data ++ keyTail toLowerRune ks)

/-! ## Concrete inputs -/

/-- A network in which every resolution, dial and write succeeds.  A dialed socket is
identified by the length of the history and gets the requested local address, or an
ephemeral one. -/
def exEnv : Env :=
  { ResolveUDPAddr := fun _ a => .ok a
    Dial := fun tr l r => .ok (.udp ⟨tr.length, l.getD "192.0.2.1:40000", r⟩)
    Write := fun _ _ _ => none
    WriteTo := fun _ _ _ => none }

/-- A network in which a dial with a given local address (an alias dial) fails. -/
def exEnvAliasFails : Env :=
  { exEnv with
    Dial := fun tr l r =>
      match l with
      | none => .ok (.udp ⟨tr.length, "192.0.2.1:40000", r⟩)
      | some _ => .error "bind: address already in use" }

/-- A network in which every dial fails. -/
def exEnvDialFails : Env :=
  { exEnv with Dial := fun _ _ _ => .error "connect: network is unreachable" }

/-- A network in which writing to the listening socket fails. -/
def exEnvWriteToFails : Env :=
  { exEnv with WriteTo := fun _ _ _ => some "sendto: message too long" }

/-- The primary connection of the example session. -/
def exRconn : UDPConn := ⟨1, "192.0.2.1:40000", "198.51.100.7:22017"⟩

/-- The alias connection of the example session. -/
def exAconn : UDPConn := ⟨3, "192.0.2.1:40000", "198.51.100.8:22017"⟩

/-- A session of the client `203.0.113.5:5000`. -/
def exProxy : udpProxy := { laddr := "203.0.113.5:5000", rconn := exRconn, aconns := [exAconn] }

/-- A session of a second client, without alias connections. -/
def exProxyB : udpProxy :=
  { laddr := "203.0.113.9:6000", rconn := ⟨7, "192.0.2.1:40001", "198.51.100.7:22017"⟩, aconns := [] }

/-- A configuration with one alias address. -/
def exConfig : Config :=
  { Parameters := [":12017", "198.51.100.7:22017"], Tokens := [],
    ReplyAddrAliases := ["198.51.100.8:22017"] }

/-- A server that has no session yet. -/
def exServer : ProxyServer := NewProxyServer ":12017" "198.51.100.7:22017" exConfig

/-- A running server with the two example sessions. -/
def exSys : Sys :=
  { srv := { exServer with
      udpClients := [("203.0.113.5:5000", exProxy), ("203.0.113.9:6000", exProxyB)] },
    trace := [] }

/-- A running server without sessions. -/
def exSys0 : Sys := { srv := exServer, trace := [] }

/-- The dial events of creating the example session in `exEnv`. -/
def exDialTrace : List Event :=
  [Event.dialCall "" "198.51.100.7:22017", Event.opened (Conn.udp exRconn),
    Event.dialCall "192.0.2.1:40000" "198.51.100.8:22017", Event.opened (Conn.udp exAconn)]

/-- The dial events of the creation that fails at the alias in `exEnvAliasFails`. -/
def exFailTrace : List Event :=
  [Event.dialCall "" "198.51.100.7:22017", Event.opened (Conn.udp exRconn),
    Event.dialCall "192.0.2.1:40000" "198.51.100.8:22017"]

/-- An interleaving for the example client: a datagram, the reaping of its session, and a
second datagram. -/
def exSteps : List Step :=
  [.read (.datagram "203.0.113.5:5000" [112, 105, 110, 103]),
    .closed "203.0.113.5:5000",
    .read (.datagram "203.0.113.5:5000" [112, 111, 110, 103])]

/-- The tokens of one `reply-addr-alias` directive with one argument. -/
def exTokens : List (String × List Token) :=
  [("reply-addr-alias",
    [⟨"Caddyfile", 2, "reply-addr-alias"⟩, ⟨"Caddyfile", 2, "198.51.100.8:22017"⟩])]

/-- The server block `proxy :12017 198.51.100.7:22017`. -/
def exBlockProxy : ServerBlock :=
  { Keys := ["proxy", ":12017", "198.51.100.7:22017"], Tokens := exTokens }

/-- The server block `proxy Localhost:12017 Backend:22017`, with upper-case letters. -/
def exBlockMixed : ServerBlock :=
  { Keys := ["proxy", "Localhost:12017", "Backend:22017"], Tokens := exTokens }

/-- The server block `echo :12345`: a listen type other than `proxy` and one address. -/
def exBlockEcho : ServerBlock :=
  { Keys := ["echo", ":12345"], Tokens := [] }

/-- The context after `InspectServerBlocks` on `exBlockProxy`. -/
def exContextProxy : caddyContext :=
  { heap := [{ Parameters := [":12017", "198.51.100.7:22017"],
               Tokens := [("reply-addr-alias", ["reply-addr-alias", "198.51.100.8:22017"])],
               ReplyAddrAliases := [] }],
    keysToConfigs := [("proxy~:12017~198.51.100.7:22017", 0)],
    configs := [0] }

/-- The context after `InspectServerBlocks` on `exBlockMixed`. -/
def exContextMixed : caddyContext :=
  { heap := [{ Parameters := ["localhost:12017", "backend:22017"],
               Tokens := [("reply-addr-alias", ["reply-addr-alias", "198.51.100.8:22017"])],
               ReplyAddrAliases := [] }],
    keysToConfigs := [("proxy~localhost:12017~backend:22017", 0)],
    configs := [0] }

/-- The context after `InspectServerBlocks` on `exBlockEcho`. -/
def exContextEcho : caddyContext :=
  { heap := [{ Parameters := [":12345"], Tokens := [], ReplyAddrAliases := [] }],
    keysToConfigs := [("echo~:12345", 0)],
    configs := [0] }

/-- The controller caddy builds for the key `proxy` of `exBlockProxy`. -/
def exControllerProxy : Controller :=
  { Key := "proxy", ServerBlockKeys := exBlockProxy.Keys, args := ["198.51.100.8:22017"] }

/-- The controller caddy builds for the key `proxy` of `exBlockMixed`. -/
def exControllerMixed : Controller :=
  { Key := "proxy", ServerBlockKeys := exBlockMixed.Keys, args := ["198.51.100.8:22017"] }


/-! ## Lemmas on Go maps -/

theorem Map.get_delete_self {β : Type} (m : List (String × β)) (k : String) :
    Map.get (Map.delete m k) k = none := by
  induction m with
  | nil => rfl
  | cons e m ih =>
    obtain ⟨k1, v⟩ := e
    by_cases h : k1 = k
    · simpa [Map.delete, h] using ih
    · simpa [Map.delete, Map.get, h] using ih

theorem Map.get_delete_ne {β : Type} (m : List (String × β)) (k key : String) (hne : key ≠ k) :
    Map.get (Map.delete m k) key = Map.get m key := by
  induction m with
  | nil => rfl
  | cons e m ih =>
    obtain ⟨k1, v⟩ := e
    have ih1 : Map.get (List.filter (fun e => decide (e.1 ≠ k)) m) key = Map.get m key := ih
    by_cases h : k1 = k
    · subst h
      have h1 : ¬ k1 = key := fun h2 => hne h2.symm
      simp only [Map.delete, List.filter_cons, Map.get, h1, if_false]
      simpa using ih1
    · by_cases h1 : k1 = key
      · subst h1
        simp [Map.delete, List.filter_cons, Map.get, h]
      · simp only [Map.delete, List.filter_cons, Map.get, h1, if_false]
        simpa [h, Map.get, h1] using ih1

theorem Map.delete_of_get_none {β : Type} (m : List (String × β)) (k : String)
    (h : Map.get m k = none) : Map.delete m k = m := by
  induction m with
  | nil => rfl
  | cons e m ih =>
    obtain ⟨k1, v⟩ := e
    by_cases h1 : k1 = k
    · simp [Map.get, h1] at h
    · simp only [Map.get, h1, if_false] at h
      have h2 : List.filter (fun e => decide (e.1 ≠ k)) m = m := ih h
      have h3 : decide ((k1, v).1 ≠ k) = true := by simpa using h1
      simp only [Map.delete, List.filter_cons]
      rw [if_pos h3, h2]

theorem Map.get_set_self {β : Type} (m : List (String × β)) (k : String) (v : β) :
    Map.get (Map.set m k v) k = some v := by
  simp [Map.set, Map.get]

theorem Map.get_set_ne {β : Type} (m : List (String × β)) (k key : String) (v : β)
    (hne : key ≠ k) : Map.get (Map.set m k v) key = Map.get m key := by
  have h1 : k ≠ key := fun h => hne h.symm
  simp [Map.set, Map.get, h1, Map.get_delete_ne m k key hne]

/-! ## The reaper -/

theorem Close_trace (p : udpProxy) (tr : List Event) :
    p.Close tr = tr ++ Event.closed p.rconn :: p.aconns.map Event.closed := by
  have key : ∀ (l : List UDPConn) (t : List Event),
      l.foldl closeConn t = t ++ l.map Event.closed := by
    intro l
    induction l with
    | nil => intro t; simp
    | cons c l ih => intro t; simp [List.foldl, ih, closeConn]
  simp [udpProxy.Close, key, closeConn]

theorem handleClosedIter_absent (sys : Sys) (clientAddr : String)
    (h : Map.get sys.srv.udpClients clientAddr = none) :
    handleClosedIter sys clientAddr = sys := by
  simp [handleClosedIter, h]

/-- C7. Reaping a present session: handling one termination notification for a client
address that has an entry closes the primary connection and then every alias connection of
that session and nothing else, removes the entry of that address, and leaves the entry of
every other address as it was; no connection of another session is closed unless the reaped
session owns it too. -/
theorem handleClosedIter_present (sys : Sys) (clientAddr : String) (conn : udpProxy)
    (h : Map.get sys.srv.udpClients clientAddr = some conn) :
    (handleClosedIter sys clientAddr).trace
        = sys.trace ++ Event.closed conn.rconn :: conn.aconns.map Event.closed
      ∧ Map.get (handleClosedIter sys clientAddr).srv.udpClients clientAddr = none
      ∧ (∀ k, k ≠ clientAddr →
          Map.get (handleClosedIter sys clientAddr).srv.udpClients k
            = Map.get sys.srv.udpClients k)
      ∧ (∀ k other c, k ≠ clientAddr → Map.get sys.srv.udpClients k = some other →
          c ∈ other.rconn :: other.aconns → c ∉ conn.rconn :: conn.aconns →
          Event.closed c ∉ (handleClosedIter sys clientAddr).trace.drop sys.trace.length) := by
  have htr : (handleClosedIter sys clientAddr).trace
      = sys.trace ++ Event.closed conn.rconn :: conn.aconns.map Event.closed := by
    simp [handleClosedIter, h, Close_trace]
  refine ⟨htr, ?_, ?_, ?_⟩
  · simp [handleClosedIter, h, Map.get_delete_self]
  · intro k hk
    simp [handleClosedIter, h, Map.get_delete_ne _ _ _ hk]
  · intro k other c _ _ _ hc
    rw [htr, List.drop_left]
    intro hmem
    apply hc
    simp only [List.mem_cons, List.mem_map] at hmem ⊢
    rcases hmem with h1 | ⟨a, ha, h1⟩
    · left; injection h1
    · right; injection h1 with h2; exact h2 ▸ ha

theorem handleClosedIter_present_witness :
    Map.get exSys.srv.udpClients "203.0.113.5:5000" = some exProxy
      ∧ (handleClosedIter exSys "203.0.113.5:5000").trace
          = exSys.trace ++ Event.closed exProxy.rconn :: exProxy.aconns.map Event.closed
      ∧ Map.get (handleClosedIter exSys "203.0.113.5:5000").srv.udpClients "203.0.113.5:5000" = none
      ∧ (∀ k, k ≠ "203.0.113.5:5000" →
          Map.get (handleClosedIter exSys "203.0.113.5:5000").srv.udpClients k
            = Map.get exSys.srv.udpClients k)
      ∧ (∀ k other c, k ≠ "203.0.113.5:5000" → Map.get exSys.srv.udpClients k = some other →
          c ∈ other.rconn :: other.aconns → c ∉ exProxy.rconn :: exProxy.aconns →
          Event.closed c ∉ (handleClosedIter exSys "203.0.113.5:5000").trace.drop exSys.trace.length) :=
  ⟨by decide, handleClosedIter_present exSys "203.0.113.5:5000" exProxy (by decide)⟩

/-- C8. Reaping is idempotent: a termination notification for an address without an entry
leaves the server and the trace of effects as they were, so nothing is closed; after any
notification the address has no entry; hence handling the same notification twice in a row
gives the same server, and the same trace of close events, as handling it once: the second
handling closes nothing again. -/
theorem handleClosedIter_idempotent (sys : Sys) (clientAddr : String) :
    (Map.get sys.srv.udpClients clientAddr = none → handleClosedIter sys clientAddr = sys)
      ∧ Map.get (handleClosedIter sys clientAddr).srv.udpClients clientAddr = none
      ∧ handleClosedIter (handleClosedIter sys clientAddr) clientAddr
          = handleClosedIter sys clientAddr
      ∧ (handleClosedIter (handleClosedIter sys clientAddr) clientAddr).trace
          = (handleClosedIter sys clientAddr).trace := by
  have h2 : Map.get (handleClosedIter sys clientAddr).srv.udpClients clientAddr = none := by
    cases h : Map.get sys.srv.udpClients clientAddr with
    | none => rw [handleClosedIter_absent sys clientAddr h]; exact h
    | some conn => simp [handleClosedIter, h, Map.get_delete_self]
  exact ⟨handleClosedIter_absent sys clientAddr, h2, handleClosedIter_absent _ _ h2,
    by rw [handleClosedIter_absent _ _ h2]⟩

theorem handleClosedIter_idempotent_witness :
    Map.get exSys0.srv.udpClients "203.0.113.5:5000" = none
      ∧ handleClosedIter exSys0 "203.0.113.5:5000" = exSys0
      ∧ handleClosedIter (handleClosedIter exSys "203.0.113.5:5000") "203.0.113.5:5000"
          = handleClosedIter exSys "203.0.113.5:5000" :=
  ⟨by decide, (handleClosedIter_idempotent exSys0 "203.0.113.5:5000").1 (by decide),
    (handleClosedIter_idempotent exSys "203.0.113.5:5000").2.2.1⟩

/-! ## The reply reader -/

theorem take_read (payload buf : Payload) :
    (payload.take (min payload.length buf.length)
        ++ buf.drop (min payload.length buf.length)).take (min payload.length buf.length)
      = payload.take buf.length := by
  have h1 : (payload.take (min payload.length buf.length)).length
      = min payload.length buf.length := by
    simp
  rw [List.take_left' h1]
  rcases Nat.le_total payload.length buf.length with h | h
  · rw [Nat.min_eq_left h, List.take_of_length_le (le_refl _), List.take_of_length_le h]
  · rw [Nat.min_eq_right h]

theorem length_read (payload buf : Payload) :
    (payload.take (min payload.length buf.length)
        ++ buf.drop (min payload.length buf.length)).length = buf.length := by
  simp only [List.length_append, List.length_take, List.length_drop]
  omega

theorem WaitSingleIter_write_failed (env : Env) (p : udpProxy) (tr : List Event)
    (buf payload : Payload) (err : Error)
    (h : env.WriteTo tr (payload.take buf.length) p.laddr = some err) :
    WaitSingleIter env p tr buf (.reply payload)
      = .exited (tr ++ [Event.writtenTo (payload.take buf.length) p.laddr,
          Event.notified p.laddr]) := by
  have hle : min payload.length buf.length
      ≤ (payload.take (min payload.length buf.length)
          ++ buf.drop (min payload.length buf.length)).length := by
    rw [length_read]; exact Nat.min_le_right _ _
  simp only [WaitSingleIter, connRead, hle, if_true, take_read, h]

/-- C6, as the code has it. In `WaitSingle`, when a reply was read and writing it to the client
through the listening socket fails, the reader sends the client address of the session on the
termination channel and returns, exactly as it does when the read from the remote connection
fails; the function has no result through which an error could reach `ServePacket`. -/
theorem WaitSingleIter_write_failure_notifies (env : Env) (p : udpProxy) (tr : List Event)
    (buf payload : Payload) (err : Error)
    (h : env.WriteTo tr (payload.take buf.length) p.laddr = some err) :
    WaitSingleIter env p tr buf (.reply payload)
        = .exited (tr ++ [Event.writtenTo (payload.take buf.length) p.laddr,
            Event.notified p.laddr])
      ∧ ∀ n rerr, WaitSingleIter env p tr buf (.failure n rerr)
          = .exited (tr ++ [Event.notified p.laddr]) :=
  ⟨WaitSingleIter_write_failed env p tr buf payload err h, fun _ _ => rfl⟩

theorem WaitSingleIter_write_failure_notifies_witness :
    exEnvWriteToFails.WriteTo [] (List.take waitBuf.length [112, 111, 110, 103]) exProxy.laddr
        = some "sendto: message too long"
      ∧ WaitSingleIter exEnvWriteToFails exProxy [] waitBuf (.reply [112, 111, 110, 103])
        = .exited ([] ++ [Event.writtenTo (List.take waitBuf.length [112, 111, 110, 103])
            exProxy.laddr, Event.notified exProxy.laddr])
      ∧ ∀ n rerr, WaitSingleIter exEnvWriteToFails exProxy [] waitBuf (.failure n rerr)
          = .exited ([] ++ [Event.notified exProxy.laddr]) :=
  ⟨rfl, WaitSingleIter_write_failure_notifies exEnvWriteToFails exProxy [] waitBuf
    [112, 111, 110, 103] "sendto: message too long" rfl⟩

theorem waitBuf_length : waitBuf.length = 32 * 1024 := by
  rw [waitBuf, List.length_replicate]

/-- C6 fails as stated: with a reply read and the write to the client failing, `WaitSingle`
does send the client address on the termination channel, and then returns. -/
theorem WaitSingle_write_failure_counterexample :
    WaitSingle exEnvWriteToFails exProxy [] [.reply [112, 111, 110, 103]]
        = .exited [Event.writtenTo [112, 111, 110, 103] "203.0.113.5:5000",
            Event.notified "203.0.113.5:5000"] := by
  have h := WaitSingleIter_write_failed exEnvWriteToFails exProxy [] waitBuf
    [112, 111, 110, 103] "sendto: message too long" rfl
  have htake : List.take waitBuf.length ([112, 111, 110, 103] : Payload)
      = [112, 111, 110, 103] := by
    rw [waitBuf_length]; rfl
  rw [htake] at h
  rw [WaitSingle, WaitSingleLoop, h]
  rfl

/-! ## Dialing -/

theorem dialUDP_ok (env : Env) (tr : List Event) (l r : String) (c : UDPConn)
    (tr1 : List Event) (h : dialUDP env tr l r = (.ok c, tr1)) :
    tr1 = tr ++ [Event.dialCall l r, Event.opened (Conn.udp c)] := by
  unfold dialUDP at h
  simp only at h
  split at h
  · simp at h
  · split at h
    · simp at h
    · split at h
      · simp at h
      · split at h
        · simp only [Prod.mk.injEq, Except.ok.injEq] at h
          obtain ⟨h1, h2⟩ := h
          subst h1
          rw [← h2]
          simp
        · simp at h

theorem dialUDP_events (env : Env) (tr : List Event) (l r : String) :
    ∃ new, (dialUDP env tr l r).2 = tr ++ new ∧ ∀ e ∈ new, e.isDial = true := by
  unfold dialUDP
  simp only
  split
  · exact ⟨[Event.dialCall l r], rfl, by simp [Event.isDial]⟩
  · split
    · exact ⟨[Event.dialCall l r], rfl, by simp [Event.isDial]⟩
    · split
      · exact ⟨[Event.dialCall l r], rfl, by simp [Event.isDial]⟩
      · split
        · exact ⟨[Event.dialCall l r, Event.opened _], by simp; rfl, by simp [Event.isDial]⟩
        · exact ⟨[Event.dialCall l r, Event.opened _], by simp; rfl, by simp [Event.isDial]⟩

theorem dialUDP_primary (env : Env) (tr : List Event) (r : String) (c : UDPConn)
    (tr1 : List Event) (h : dialUDP env tr "" r = (.ok c, tr1)) :
    ∃ raddr, env.ResolveUDPAddr (tr ++ [Event.dialCall "" r]) r = .ok raddr
      ∧ env.Dial (tr ++ [Event.dialCall "" r]) none raddr = .ok (Conn.udp c) := by
  unfold dialUDP at h
  simp only [ne_eq, not_true_eq_false, if_false] at h
  split at h
  · simp at h
  · rename_i raddr hres
    split at h
    · simp at h
    · rename_i conn hdial
      split at h
      · simp only [Prod.mk.injEq, Except.ok.injEq] at h
        exact ⟨raddr, hres, by rw [hdial, h.1]⟩
      · simp at h

theorem dialAliases_ok (env : Env) (l : String) :
    ∀ (as : List String) (tr : List Event) (acc cs : List UDPConn) (tr1 : List Event),
      dialAliases env l tr as acc = (.ok cs, tr1) →
      ∃ new, cs = acc ++ new ∧ new.length = as.length
        ∧ tr1 = tr ++ aliasDialEvents l as new := by
  intro as
  induction as with
  | nil =>
    intro tr acc cs tr1 h
    simp only [dialAliases, Prod.mk.injEq, Except.ok.injEq] at h
    exact ⟨[], by simp [h.1], rfl, by simp [aliasDialEvents, h.2]⟩
  | cons a as ih =>
    intro tr acc cs tr1 h
    rw [dialAliases] at h
    cases hd : dialUDP env tr l a with
    | mk res tr2 =>
      rw [hd] at h
      cases res with
      | error err => simp at h
      | ok c =>
        simp only at h
        obtain ⟨new, h1, h2, h3⟩ := ih tr2 (acc ++ [c]) cs tr1 h
        refine ⟨c :: new, by simp [h1], by simp [h2], ?_⟩
        rw [h3, dialUDP_ok env tr l a c tr2 hd]
        simp [aliasDialEvents]

theorem dialAliases_events (env : Env) (l : String) :
    ∀ (as : List String) (tr : List Event) (acc : List UDPConn),
      ∃ new, (dialAliases env l tr as acc).2 = tr ++ new ∧ ∀ e ∈ new, e.isDial = true := by
  intro as
  induction as with
  | nil => intro tr acc; exact ⟨[], by simp [dialAliases], by simp⟩
  | cons a as ih =>
    intro tr acc
    rw [dialAliases]
    obtain ⟨new1, h1, h2⟩ := dialUDP_events env tr l a
    cases hd : dialUDP env tr l a with
    | mk res tr2 =>
      rw [hd] at h1
      simp only at h1
      cases res with
      | error err => exact ⟨new1, h1, h2⟩
      | ok c =>
        simp only
        obtain ⟨new2, h3, h4⟩ := ih tr2 (acc ++ [c])
        refine ⟨new1 ++ new2, by rw [h3, h1, List.append_assoc], ?_⟩
        intro e he
        rcases List.mem_append.mp he with he | he
        · exact h2 e he
        · exact h4 e he

theorem createSession_events (env : Env) (s : ProxyServer) (tr : List Event) (addr : String) :
    ∃ new, (createSession env s tr addr).2 = tr ++ new ∧ ∀ e ∈ new, e.isDial = true := by
  unfold createSession
  obtain ⟨new1, h1, h2⟩ := dialUDP_events env tr "" s.RemoteAddr
  cases hd : dialUDP env tr "" s.RemoteAddr with
  | mk res tr1 =>
    rw [hd] at h1
    simp only at h1
    cases res with
    | error err => exact ⟨new1, h1, h2⟩
    | ok rc =>
      simp only
      by_cases hlen : 0 < s.config.ReplyAddrAliases.length
      · simp only [hlen, if_true]
        obtain ⟨new2, h3, h4⟩ :=
          dialAliases_events env rc.laddr s.config.ReplyAddrAliases tr1 []
        have hmem : ∀ e ∈ new1 ++ new2, e.isDial = true := by
          intro e he
          rcases List.mem_append.mp he with he | he
          · exact h2 e he
          · exact h4 e he
        cases ha : dialAliases env rc.laddr tr1 s.config.ReplyAddrAliases [] with
        | mk res2 tr2 =>
          rw [ha] at h3
          simp only at h3
          have htr : tr2 = tr ++ (new1 ++ new2) := by rw [h3, h1, List.append_assoc]
          cases res2 with
          | error err => exact ⟨new1 ++ new2, htr, hmem⟩
          | ok acs => exact ⟨new1 ++ new2, htr, hmem⟩
      · simp only [hlen, if_false]
        exact ⟨new1, h1, h2⟩

theorem createSession_ok (env : Env) (s : ProxyServer) (tr : List Event) (addr : String)
    (conn : udpProxy) (tr1 : List Event)
    (h : createSession env s tr addr = (.ok conn, tr1)) :
    conn.laddr = addr
      ∧ conn.aconns.length = s.config.ReplyAddrAliases.length
      ∧ tr1 = tr ++ [Event.dialCall "" s.RemoteAddr, Event.opened (Conn.udp conn.rconn)]
          ++ aliasDialEvents conn.rconn.laddr s.config.ReplyAddrAliases conn.aconns
      ∧ ∃ raddr,
          env.ResolveUDPAddr (tr ++ [Event.dialCall "" s.RemoteAddr]) s.RemoteAddr = .ok raddr
            ∧ env.Dial (tr ++ [Event.dialCall "" s.RemoteAddr]) none raddr
              = .ok (Conn.udp conn.rconn) := by
  unfold createSession at h
  cases hd : dialUDP env tr "" s.RemoteAddr with
  | mk res tr2 =>
    rw [hd] at h
    cases res with
    | error err => simp at h
    | ok rc =>
      simp only at h
      have hprim := dialUDP_primary env tr s.RemoteAddr rc tr2 hd
      have htr2 := dialUDP_ok env tr "" s.RemoteAddr rc tr2 hd
      by_cases hlen : 0 < s.config.ReplyAddrAliases.length
      · simp only [hlen, if_true] at h
        cases ha : dialAliases env rc.laddr tr2 s.config.ReplyAddrAliases [] with
        | mk res2 tr3 =>
          rw [ha] at h
          cases res2 with
          | error err => simp at h
          | ok acs =>
            simp only [Prod.mk.injEq, Except.ok.injEq] at h
            obtain ⟨new, h1, h2, h3⟩ := dialAliases_ok env rc.laddr _ tr2 [] acs tr3 ha
            simp only [List.nil_append] at h1
            obtain ⟨hc, ht⟩ := h
            subst hc
            subst h1
            refine ⟨rfl, h2, ?_, hprim⟩
            rw [← ht, h3, htr2]
      · simp only [hlen, if_false, Prod.mk.injEq, Except.ok.injEq] at h
        obtain ⟨hc, ht⟩ := h
        subst hc
        have hnil : s.config.ReplyAddrAliases = [] := by
          cases hl : s.config.ReplyAddrAliases with
          | nil => rfl
          | cons a as => rw [hl] at hlen; simp at hlen
        refine ⟨rfl, by simp [hnil], ?_, hprim⟩
        rw [← ht, htr2, hnil]
        simp [aliasDialEvents]

theorem dialUDP_local (env : Env) (tr : List Event) (l r : String) (c : UDPConn)
    (tr1 : List Event) (hl : l ≠ "")
    (hbind : ∀ t la ra d, env.ResolveUDPAddr t l = .ok la →
      env.Dial t (some la) ra = .ok (Conn.udp d) → d.laddr = l)
    (h : dialUDP env tr l r = (.ok c, tr1)) : c.laddr = l := by
  unfold dialUDP at h
  simp only [ne_eq, hl, not_false_eq_true, if_true] at h
  cases hres : env.ResolveUDPAddr (tr ++ [Event.dialCall l r]) l with
  | error err => rw [hres] at h; simp [Except.map] at h
  | ok la =>
    rw [hres] at h
    simp only [Except.map] at h
    split at h
    · simp at h
    · split at h
      · simp at h
      · rename_i conn hdial
        cases conn with
        | udp d =>
          simp only [Prod.mk.injEq, Except.ok.injEq] at h
          rw [← h.1]
          exact hbind _ la _ _ hres hdial
        | other n => simp at h

theorem dialAliases_local (env : Env) (l : String) (hl : l ≠ "")
    (hbind : ∀ t la ra d, env.ResolveUDPAddr t l = .ok la →
      env.Dial t (some la) ra = .ok (Conn.udp d) → d.laddr = l) :
    ∀ (as : List String) (tr : List Event) (acc cs : List UDPConn) (tr1 : List Event),
      dialAliases env l tr as acc = (.ok cs, tr1) → (∀ c ∈ acc, c.laddr = l) →
      ∀ c ∈ cs, c.laddr = l := by
  intro as
  induction as with
  | nil =>
    intro tr acc cs tr1 h hacc
    simp only [dialAliases, Prod.mk.injEq, Except.ok.injEq] at h
    rw [← h.1]; exact hacc
  | cons a as ih =>
    intro tr acc cs tr1 h hacc
    rw [dialAliases] at h
    cases hd : dialUDP env tr l a with
    | mk res tr2 =>
      rw [hd] at h
      cases res with
      | error err => simp at h
      | ok c =>
        simp only at h
        apply ih tr2 (acc ++ [c]) cs tr1 h
        intro d hmem
        rcases List.mem_append.mp hmem with h1 | h1
        · exact hacc d h1
        · rw [List.mem_singleton.mp h1]
          exact dialUDP_local env tr l a c tr2 hl hbind hd

theorem dialUDP_dialed (env : Env) (tr : List Event) (l r : String) (c : UDPConn)
    (tr1 : List Event) (h : dialUDP env tr l r = (.ok c, tr1)) :
    ∃ laddr raddr,
      (l ≠ "" → ∃ la, env.ResolveUDPAddr (tr ++ [Event.dialCall l r]) l = .ok la
        ∧ laddr = some la)
      ∧ (l = "" → laddr = none)
      ∧ env.ResolveUDPAddr (tr ++ [Event.dialCall l r]) r = .ok raddr
      ∧ env.Dial (tr ++ [Event.dialCall l r]) laddr raddr = .ok (Conn.udp c) := by
  unfold dialUDP at h
  simp only at h
  split at h
  · simp at h
  · rename_i laddr hlocal
    split at h
    · simp at h
    · rename_i raddr hres
      split at h
      · simp at h
      · rename_i conn hdial
        cases conn with
        | other n => simp at h
        | udp d =>
          simp only [Prod.mk.injEq, Except.ok.injEq] at h
          refine ⟨laddr, raddr, ?_, ?_, hres, by rw [hdial, h.1]⟩
          · intro hl
            rw [if_pos hl] at hlocal
            cases hl1 : env.ResolveUDPAddr (tr ++ [Event.dialCall l r]) l with
            | error err => rw [hl1] at hlocal; simp [Except.map] at hlocal
            | ok la =>
              rw [hl1] at hlocal
              simp only [Except.map, Except.ok.injEq] at hlocal
              exact ⟨la, rfl, hlocal.symm⟩
          · intro hl
            rw [if_neg (not_not.mpr hl)] at hlocal
            simp only [Except.ok.injEq] at hlocal
            exact hlocal.symm

theorem dialAliases_dialed (env : Env) (l : String) :
    ∀ (as : List String) (tr : List Event) (acc cs : List UDPConn) (tr1 : List Event),
      dialAliases env l tr as acc = (.ok cs, tr1) →
      ∃ new, cs = acc ++ new ∧ aliasDialed env l tr as new := by
  intro as
  induction as with
  | nil =>
    intro tr acc cs tr1 h
    simp only [dialAliases, Prod.mk.injEq, Except.ok.injEq] at h
    exact ⟨[], by simp [h.1], trivial⟩
  | cons a as ih =>
    intro tr acc cs tr1 h
    rw [dialAliases] at h
    cases hd : dialUDP env tr l a with
    | mk res tr2 =>
      rw [hd] at h
      cases res with
      | error err => simp at h
      | ok c =>
        simp only at h
        obtain ⟨new, h1, h2⟩ := ih tr2 (acc ++ [c]) cs tr1 h
        rw [dialUDP_ok env tr l a c tr2 hd] at h2
        exact ⟨c :: new, by simp [h1], dialUDP_dialed env tr l a c tr2 hd, h2⟩

theorem createSession_dialed (env : Env) (s : ProxyServer) (tr : List Event) (addr : String)
    (conn : udpProxy) (tr1 : List Event)
    (h : createSession env s tr addr = (.ok conn, tr1)) :
    aliasDialed env conn.rconn.laddr
      (tr ++ [Event.dialCall "" s.RemoteAddr, Event.opened (Conn.udp conn.rconn)])
      s.config.ReplyAddrAliases conn.aconns := by
  unfold createSession at h
  cases hd : dialUDP env tr "" s.RemoteAddr with
  | mk res tr2 =>
    rw [hd] at h
    cases res with
    | error err => simp at h
    | ok rc =>
      simp only at h
      have htr2 := dialUDP_ok env tr "" s.RemoteAddr rc tr2 hd
      by_cases hlen : 0 < s.config.ReplyAddrAliases.length
      · simp only [hlen, if_true] at h
        cases ha : dialAliases env rc.laddr tr2 s.config.ReplyAddrAliases [] with
        | mk res2 tr3 =>
          rw [ha] at h
          cases res2 with
          | error err => simp at h
          | ok acs =>
            simp only [Prod.mk.injEq, Except.ok.injEq] at h
            obtain ⟨new, h1, h2⟩ := dialAliases_dialed env rc.laddr _ tr2 [] acs tr3 ha
            simp only [List.nil_append] at h1
            obtain ⟨hc, _⟩ := h
            subst hc
            subst h1
            rw [htr2] at h2
            exact h2
      · simp only [hlen, if_false, Prod.mk.injEq, Except.ok.injEq] at h
        obtain ⟨hc, _⟩ := h
        subst hc
        have hnil : s.config.ReplyAddrAliases = [] := by
          cases hl : s.config.ReplyAddrAliases with
          | nil => rfl
          | cons a as => rw [hl] at hlen; simp at hlen
        rw [hnil]
        trivial

/-- The alias connections of a created session have the local address of its primary
connection, in a network that binds a socket to the local address it is dialed with. -/
theorem createSession_same_local_address (env : Env) (s : ProxyServer) (tr : List Event)
    (addr : String) (conn : udpProxy) (tr1 : List Event)
    (h : createSession env s tr addr = (.ok conn, tr1))
    (hl : conn.rconn.laddr ≠ "")
    (hbind : ∀ t la ra d, env.ResolveUDPAddr t conn.rconn.laddr = .ok la →
      env.Dial t (some la) ra = .ok (Conn.udp d) → d.laddr = conn.rconn.laddr) :
    ∀ c ∈ conn.aconns, c.laddr = conn.rconn.laddr := by
  unfold createSession at h
  cases hd : dialUDP env tr "" s.RemoteAddr with
  | mk res tr2 =>
    rw [hd] at h
    cases res with
    | error err => simp at h
    | ok rc =>
      simp only at h
      by_cases hlen : 0 < s.config.ReplyAddrAliases.length
      · simp only [hlen, if_true] at h
        cases ha : dialAliases env rc.laddr tr2 s.config.ReplyAddrAliases [] with
        | mk res2 tr3 =>
          rw [ha] at h
          cases res2 with
          | error err => simp at h
          | ok acs =>
            simp only [Prod.mk.injEq, Except.ok.injEq] at h
            obtain ⟨hc, _⟩ := h
            subst hc
            exact dialAliases_local env rc.laddr hl hbind _ tr2 [] acs tr3 ha (by simp)
      · simp only [hlen, if_false, Prod.mk.injEq, Except.ok.injEq] at h
        obtain ⟨hc, _⟩ := h
        subst hc
        simp

/-! ## One round of `ServePacket` on a datagram -/

theorem forward_read (env : Env) (sys : Sys) (buf payload : Payload) (conn : udpProxy) :
    forward env sys
        (payload.take (min payload.length buf.length)
          ++ buf.drop (min payload.length buf.length))
        (min payload.length buf.length) conn
      = match env.Write sys.trace conn.rconn (payload.take buf.length) with
        | some err =>
          .returned err
            { sys with trace := sys.trace ++ [Event.written conn.rconn (payload.take buf.length)] }
        | none =>
          .next
            { sys with trace := sys.trace ++ [Event.written conn.rconn (payload.take buf.length)] }
            (payload.take (min payload.length buf.length)
              ++ buf.drop (min payload.length buf.length)) := by
  have hle : min payload.length buf.length
      ≤ (payload.take (min payload.length buf.length)
          ++ buf.drop (min payload.length buf.length)).length := by
    rw [length_read]; exact Nat.min_le_right _ _
  simp only [forward, hle, if_true, take_read]

theorem forward_read_sys (env : Env) (sys : Sys) (buf payload : Payload) (conn : udpProxy) :
    (forward env sys
        (payload.take (min payload.length buf.length)
          ++ buf.drop (min payload.length buf.length))
        (min payload.length buf.length) conn).sys
      = { sys with trace := sys.trace ++ [Event.written conn.rconn (payload.take buf.length)] } := by
  rw [forward_read]
  cases env.Write sys.trace conn.rconn (payload.take buf.length) <;> rfl

theorem ServePacketIter_found (env : Env) (sys : Sys) (buf payload : Payload) (a : String)
    (conn : udpProxy) (h : Map.get sys.srv.udpClients a = some conn) :
    ServePacketIter env sys buf (.datagram a payload)
      = forward env sys
          (payload.take (min payload.length buf.length)
            ++ buf.drop (min payload.length buf.length))
          (min payload.length buf.length) conn := by
  simp [ServePacketIter, ReadFrom, h]

theorem ServePacketIter_created (env : Env) (sys : Sys) (buf payload : Payload) (a : String)
    (conn : udpProxy) (tr1 : List Event)
    (hnew : Map.get sys.srv.udpClients a = none)
    (hdial : createSession env sys.srv sys.trace a = (.ok conn, tr1)) :
    ServePacketIter env sys buf (.datagram a payload)
      = forward env
          { srv := { sys.srv with udpClients := Map.set sys.srv.udpClients a conn },
            trace := tr1 ++ [Event.waiting conn] }
          (payload.take (min payload.length buf.length)
            ++ buf.drop (min payload.length buf.length))
          (min payload.length buf.length) conn := by
  simp [ServePacketIter, ReadFrom, hnew, hdial]

theorem ServePacketIter_dial_failed (env : Env) (sys : Sys) (buf payload : Payload)
    (a : String) (err : Error) (tr1 : List Event)
    (hnew : Map.get sys.srv.udpClients a = none)
    (hfail : createSession env sys.srv sys.trace a = (.error err, tr1)) :
    ServePacketIter env sys buf (.datagram a payload)
      = .returned err { sys with trace := tr1 } := by
  simp [ServePacketIter, ReadFrom, hnew, hfail]

theorem createSession_error (env : Env) (s : ProxyServer) (tr : List Event) (addr : String)
    (err : Error) (tr1 : List Event)
    (h : createSession env s tr addr = (.error err, tr1)) :
    dialUDP env tr "" s.RemoteAddr = (.error err, tr1)
      ∨ ∃ rc tr2, dialUDP env tr "" s.RemoteAddr = (.ok rc, tr2)
          ∧ dialAliases env rc.laddr tr2 s.config.ReplyAddrAliases [] = (.error err, tr1) := by
  unfold createSession at h
  cases hd : dialUDP env tr "" s.RemoteAddr with
  | mk res tr2 =>
    rw [hd] at h
    cases res with
    | error e =>
      simp only [Prod.mk.injEq, Except.error.injEq] at h
      left; rw [h.1, h.2]
    | ok rc =>
      right
      refine ⟨rc, tr2, rfl, ?_⟩
      simp only at h
      by_cases hlen : 0 < s.config.ReplyAddrAliases.length
      · simp only [hlen, if_true] at h
        cases ha : dialAliases env rc.laddr tr2 s.config.ReplyAddrAliases [] with
        | mk res2 tr3 =>
          rw [ha] at h
          cases res2 with
          | error e =>
            simp only [Prod.mk.injEq, Except.error.injEq] at h
            rw [h.1, h.2]
          | ok acs => simp at h
      · simp [hlen] at h

theorem writesOf_append (tr1 tr2 : List Event) :
    writesOf (tr1 ++ tr2) = writesOf tr1 ++ writesOf tr2 := by
  induction tr1 with
  | nil => rfl
  | cons e tr1 ih => cases e <;> simp [writesOf, ih]

theorem writesOf_dial (new : List Event) (h : ∀ e ∈ new, e.isDial = true) :
    writesOf new = [] := by
  induction new with
  | nil => rfl
  | cons e new ih =>
    have he := h e (List.mem_cons_self _ _)
    have ih1 := ih (fun x hx => h x (List.mem_cons_of_mem _ hx))
    cases e <;> simp_all [writesOf, Event.isDial]

/-- C1, as the code has it. Session uniqueness in one round of `ServePacket` on a successfully
read datagram.  If the sender address has an entry, the table is left as it is and the only
effect is the write to the primary connection of that entry, so nothing is dialed.  If it
has none and the dials of session creation succeed, the new table is the old one with one
entry for that address put in front: the address now maps to the created session and every
other address maps to what it mapped to before.  If it has none and a dial fails, the table
is left as it is. -/
theorem ServePacketIter_session_uniqueness (env : Env) (sys : Sys) (buf payload : Payload)
    (a : String) :
    (∀ conn, Map.get sys.srv.udpClients a = some conn →
        (ServePacketIter env sys buf (.datagram a payload)).sys.srv.udpClients
            = sys.srv.udpClients
          ∧ (ServePacketIter env sys buf (.datagram a payload)).sys.trace
              = sys.trace ++ [Event.written conn.rconn (payload.take buf.length)]
          ∧ ∀ e ∈ (ServePacketIter env sys buf (.datagram a payload)).sys.trace.drop
              sys.trace.length, e.isDial = false)
      ∧ (∀ conn tr1, Map.get sys.srv.udpClients a = none →
          createSession env sys.srv sys.trace a = (.ok conn, tr1) →
          (ServePacketIter env sys buf (.datagram a payload)).sys.srv.udpClients
              = (a, conn) :: sys.srv.udpClients
            ∧ Map.get (ServePacketIter env sys buf (.datagram a payload)).sys.srv.udpClients a
                = some conn
            ∧ ∀ k, k ≠ a →
                Map.get (ServePacketIter env sys buf (.datagram a payload)).sys.srv.udpClients k
                  = Map.get sys.srv.udpClients k)
      ∧ (∀ err tr1, Map.get sys.srv.udpClients a = none →
          createSession env sys.srv sys.trace a = (.error err, tr1) →
          (ServePacketIter env sys buf (.datagram a payload)).sys.srv.udpClients
            = sys.srv.udpClients) := by
  refine ⟨?_, ?_, ?_⟩
  · intro conn h
    rw [ServePacketIter_found env sys buf payload a conn h, forward_read_sys]
    refine ⟨rfl, rfl, ?_⟩
    intro e he
    simp only [List.drop_left, List.mem_singleton] at he
    rw [he]; rfl
  · intro conn tr1 hnew hdial
    rw [ServePacketIter_created env sys buf payload a conn tr1 hnew hdial, forward_read_sys]
    have hset : Map.set sys.srv.udpClients a conn = (a, conn) :: sys.srv.udpClients := by
      rw [Map.set, Map.delete_of_get_none _ _ hnew]
    refine ⟨hset, ?_, ?_⟩
    · exact Map.get_set_self _ _ _
    · intro k hk
      exact Map.get_set_ne _ _ _ _ hk
  · intro err tr1 hnew hfail
    rw [ServePacketIter_dial_failed env sys buf payload a err tr1 hnew hfail]
    rfl

/-- C1 fails as stated: a datagram arrives from an address without entry, the dial of the
primary connection fails, and `ServePacket` returns with no entry added. -/
theorem ServePacketIter_no_entry_counterexample :
    Map.get exSys0.srv.udpClients "203.0.113.5:5000" = none
      ∧ ServePacketIter exEnvDialFails exSys0 serveBuf
          (.datagram "203.0.113.5:5000" [112, 105, 110, 103])
        = .returned "connect: network is unreachable"
            { exSys0 with trace := [Event.dialCall "" "198.51.100.7:22017"] }
      ∧ (ServePacketIter exEnvDialFails exSys0 serveBuf
          (.datagram "203.0.113.5:5000" [112, 105, 110, 103])).sys.srv.udpClients = [] := by
  have h := ServePacketIter_dial_failed exEnvDialFails exSys0 serveBuf [112, 105, 110, 103]
    "203.0.113.5:5000" "connect: network is unreachable"
    [Event.dialCall "" "198.51.100.7:22017"] (by decide) rfl
  refine ⟨by decide, h, ?_⟩
  rw [h]
  rfl

/-- C2. Alias binding on session creation: when a datagram arrives from a new client address
and all dials succeed, the session registered for that address has as many alias connections
as `ReplyAddrAliases` has addresses; the dials are, in order, `dialUDP("", RemoteAddr)`, which
gave the primary connection by a `Dial` without local address, and for the i-th alias
`dialUDP(l, alias_i)` with `l` the local address of that primary connection, which gave the
i-th alias connection by a `Dial` whose `LocalAddr` is the resolution of `l` and whose remote
address is the resolution of the alias.  So, in a network that binds a socket to the local
address it is dialed with, every alias connection has the local address, and with it the
local port, of the primary connection. -/
theorem ServePacketIter_alias_binding (env : Env) (sys : Sys) (buf payload : Payload)
    (a : String) (conn : udpProxy) (tr1 : List Event)
    (hnew : Map.get sys.srv.udpClients a = none)
    (hdial : createSession env sys.srv sys.trace a = (.ok conn, tr1)) :
    Map.get (ServePacketIter env sys buf (.datagram a payload)).sys.srv.udpClients a = some conn
      ∧ conn.aconns.length = sys.srv.config.ReplyAddrAliases.length
      ∧ (ServePacketIter env sys buf (.datagram a payload)).sys.trace
          = sys.trace
            ++ [Event.dialCall "" sys.srv.RemoteAddr, Event.opened (Conn.udp conn.rconn)]
            ++ aliasDialEvents conn.rconn.laddr sys.srv.config.ReplyAddrAliases conn.aconns
            ++ [Event.waiting conn, Event.written conn.rconn (payload.take buf.length)]
      ∧ (∃ raddr,
          env.ResolveUDPAddr (sys.trace ++ [Event.dialCall "" sys.srv.RemoteAddr])
              sys.srv.RemoteAddr = .ok raddr
            ∧ env.Dial (sys.trace ++ [Event.dialCall "" sys.srv.RemoteAddr]) none raddr
              = .ok (Conn.udp conn.rconn))
      ∧ aliasDialed env conn.rconn.laddr
          (sys.trace
            ++ [Event.dialCall "" sys.srv.RemoteAddr, Event.opened (Conn.udp conn.rconn)])
          sys.srv.config.ReplyAddrAliases conn.aconns
      ∧ (conn.rconn.laddr ≠ "" →
          (∀ t la ra d, env.ResolveUDPAddr t conn.rconn.laddr = .ok la →
            env.Dial t (some la) ra = .ok (Conn.udp d) → d.laddr = conn.rconn.laddr) →
          ∀ c ∈ conn.aconns, c.laddr = conn.rconn.laddr) := by
  obtain ⟨_, h2, h3, h4⟩ := createSession_ok env sys.srv sys.trace a conn tr1 hdial
  rw [ServePacketIter_created env sys buf payload a conn tr1 hnew hdial, forward_read_sys]
  refine ⟨Map.get_set_self _ _ _, h2, ?_, h4,
    createSession_dialed env sys.srv sys.trace a conn tr1 hdial,
    fun hl hbind =>
      createSession_same_local_address env sys.srv sys.trace a conn tr1 hdial hl hbind⟩
  simp only [h3, List.append_assoc, List.singleton_append, List.cons_append, List.nil_append]

/-- C4, as the code has it. Dial failure is fatal and leaves no session: when a datagram
arrives from a new client address and the dial of the primary or of an alias connection
fails, `ServePacket` returns the error of that dial with the session table as it was; the
effects of the round are calls of `dialUDP` and the connections they opened and nothing else,
so nothing is forwarded and no connection is closed. -/
theorem ServePacketIter_dial_failure (env : Env) (sys : Sys) (buf payload : Payload)
    (a : String) (err : Error) (tr1 : List Event)
    (hnew : Map.get sys.srv.udpClients a = none)
    (hfail : createSession env sys.srv sys.trace a = (.error err, tr1)) :
    ServePacketIter env sys buf (.datagram a payload) = .returned err { sys with trace := tr1 }
      ∧ (dialUDP env sys.trace "" sys.srv.RemoteAddr = (.error err, tr1)
          ∨ ∃ rc tr2, dialUDP env sys.trace "" sys.srv.RemoteAddr = (.ok rc, tr2)
              ∧ dialAliases env rc.laddr tr2 sys.srv.config.ReplyAddrAliases []
                = (.error err, tr1))
      ∧ ∃ new, tr1 = sys.trace ++ new
          ∧ (∀ e ∈ new, e.isDial = true)
          ∧ writesOf tr1 = writesOf sys.trace
          ∧ ∀ c, Event.closed c ∉ new := by
  refine ⟨ServePacketIter_dial_failed env sys buf payload a err tr1 hnew hfail,
    createSession_error env sys.srv sys.trace a err tr1 hfail, ?_⟩
  obtain ⟨new, h1, h2⟩ := createSession_events env sys.srv sys.trace a
  rw [hfail] at h1
  simp only at h1
  refine ⟨new, h1, h2, ?_, ?_⟩
  · rw [h1, writesOf_append, writesOf_dial new h2, List.append_nil]
  · intro c hc
    have := h2 _ hc
    simp [Event.isDial] at this

theorem ServePacketIter_session_uniqueness_witness :
    (Map.get exSys.srv.udpClients "203.0.113.5:5000" = some exProxy
      ∧ (ServePacketIter exEnv exSys serveBuf
            (.datagram "203.0.113.5:5000" [112, 105, 110, 103])).sys.srv.udpClients
          = exSys.srv.udpClients)
      ∧ (Map.get exSys0.srv.udpClients "203.0.113.5:5000" = none
        ∧ createSession exEnv exSys0.srv exSys0.trace "203.0.113.5:5000"
            = (.ok exProxy, exDialTrace)
        ∧ (ServePacketIter exEnv exSys0 serveBuf
              (.datagram "203.0.113.5:5000" [112, 105, 110, 103])).sys.srv.udpClients
            = ("203.0.113.5:5000", exProxy) :: exSys0.srv.udpClients) :=
  ⟨⟨by decide,
      ((ServePacketIter_session_uniqueness exEnv exSys serveBuf [112, 105, 110, 103]
        "203.0.113.5:5000").1 exProxy (by decide)).1⟩,
    ⟨by decide, rfl,
      ((ServePacketIter_session_uniqueness exEnv exSys0 serveBuf [112, 105, 110, 103]
        "203.0.113.5:5000").2.1 exProxy exDialTrace (by decide) rfl).1⟩⟩

theorem ServePacketIter_alias_binding_witness :
    Map.get exSys0.srv.udpClients "203.0.113.5:5000" = none
      ∧ createSession exEnv exSys0.srv exSys0.trace "203.0.113.5:5000"
          = (.ok exProxy, exDialTrace)
      ∧ Map.get (ServePacketIter exEnv exSys0 serveBuf
          (.datagram "203.0.113.5:5000" [112, 105, 110, 103])).sys.srv.udpClients
          "203.0.113.5:5000" = some exProxy
      ∧ exProxy.aconns.length = exSys0.srv.config.ReplyAddrAliases.length
      ∧ aliasDialed exEnv exProxy.rconn.laddr
          (exSys0.trace
            ++ [Event.dialCall "" exSys0.srv.RemoteAddr, Event.opened (Conn.udp exProxy.rconn)])
          exSys0.srv.config.ReplyAddrAliases exProxy.aconns
      ∧ ∀ c ∈ exProxy.aconns, c.laddr = exProxy.rconn.laddr :=
  ⟨by decide, rfl,
    (ServePacketIter_alias_binding exEnv exSys0 serveBuf [112, 105, 110, 103]
      "203.0.113.5:5000" exProxy exDialTrace (by decide) rfl).1,
    (ServePacketIter_alias_binding exEnv exSys0 serveBuf [112, 105, 110, 103]
      "203.0.113.5:5000" exProxy exDialTrace (by decide) rfl).2.1,
    (ServePacketIter_alias_binding exEnv exSys0 serveBuf [112, 105, 110, 103]
      "203.0.113.5:5000" exProxy exDialTrace (by decide) rfl).2.2.2.2.1,
    (ServePacketIter_alias_binding exEnv exSys0 serveBuf [112, 105, 110, 103]
      "203.0.113.5:5000" exProxy exDialTrace (by decide) rfl).2.2.2.2.2 (by decide)
      (fun t la ra d h1 h2 => by
        have h3 : la = exProxy.rconn.laddr := (Except.ok.inj h1).symm
        have h4 : d = ⟨t.length, la, ra⟩ := (Conn.udp.inj (Except.ok.inj h2)).symm
        rw [h4, h3])⟩

theorem ServePacketIter_dial_failure_witness :
    Map.get exSys0.srv.udpClients "203.0.113.5:5000" = none
      ∧ createSession exEnvAliasFails exSys0.srv exSys0.trace "203.0.113.5:5000"
          = (.error "bind: address already in use", exFailTrace)
      ∧ ServePacketIter exEnvAliasFails exSys0 serveBuf
          (.datagram "203.0.113.5:5000" [112, 105, 110, 103])
          = .returned "bind: address already in use" { exSys0 with trace := exFailTrace } :=
  ⟨by decide, rfl,
    (ServePacketIter_dial_failure exEnvAliasFails exSys0 serveBuf [112, 105, 110, 103]
      "203.0.113.5:5000" "bind: address already in use" exFailTrace (by decide) rfl).1⟩

/-- C4 fails as stated: with one alias configured, the primary dial succeeding and the alias
dial failing, `ServePacket` returns the dial error while the primary connection it has just
dialed is still open; no `Close` is called on it. -/
theorem ServePacket_dial_failure_counterexample :
    ServePacket exEnvAliasFails exServer
        [.read (.datagram "203.0.113.5:5000" [112, 105, 110, 103])]
        = .returned "bind: address already in use" { srv := exServer, trace := exFailTrace }
      ∧ Event.opened (Conn.udp exRconn) ∈ exFailTrace
      ∧ Event.closed exRconn ∉ exFailTrace
      ∧ openConns [] exFailTrace = [exRconn] := by
  refine ⟨?_, by decide, by decide, by decide⟩
  rw [ServePacket, ServePacketRun,
    ServePacketIter_dial_failed exEnvAliasFails { srv := exServer, trace := [] } serveBuf
      [112, 105, 110, 103] "203.0.113.5:5000" "bind: address already in use" exFailTrace
      (by decide) rfl]

/-! ## Forwarding the datagrams of one client -/

theorem serveBuf_length : serveBuf.length = 4096 := by
  rw [serveBuf, List.length_replicate]

theorem dialUDP_succeeds (env : Env)
    (hR : ∀ t x, ∃ y, env.ResolveUDPAddr t x = .ok y)
    (hD : ∀ t l r, ∃ c, env.Dial t l r = .ok (Conn.udp c))
    (tr : List Event) (l r : String) :
    ∃ c tr1, dialUDP env tr l r = (.ok c, tr1) := by
  by_cases hl : l = ""
  · subst hl
    obtain ⟨y, hy⟩ := hR (tr ++ [Event.dialCall "" r]) r
    obtain ⟨c, hc⟩ := hD (tr ++ [Event.dialCall "" r]) none y
    refine ⟨c, tr ++ [Event.dialCall "" r, Event.opened (Conn.udp c)], ?_⟩
    simp [dialUDP, hy, hc]
  · obtain ⟨y, hy⟩ := hR (tr ++ [Event.dialCall l r]) r
    obtain ⟨x, hx⟩ := hR (tr ++ [Event.dialCall l r]) l
    obtain ⟨c, hc⟩ := hD (tr ++ [Event.dialCall l r]) (some x) y
    refine ⟨c, tr ++ [Event.dialCall l r, Event.opened (Conn.udp c)], ?_⟩
    simp [dialUDP, hl, hx, hy, hc, Except.map]

theorem dialAliases_succeeds (env : Env)
    (hR : ∀ t x, ∃ y, env.ResolveUDPAddr t x = .ok y)
    (hD : ∀ t l r, ∃ c, env.Dial t l r = .ok (Conn.udp c)) (l : String) :
    ∀ (as : List String) (tr : List Event) (acc : List UDPConn),
      ∃ cs tr1, dialAliases env l tr as acc = (.ok cs, tr1) := by
  intro as
  induction as with
  | nil => intro tr acc; exact ⟨acc, tr, rfl⟩
  | cons a as ih =>
    intro tr acc
    obtain ⟨c, tr1, h⟩ := dialUDP_succeeds env hR hD tr l a
    obtain ⟨cs, tr2, h2⟩ := ih tr1 (acc ++ [c])
    exact ⟨cs, tr2, by rw [dialAliases, h]; exact h2⟩

theorem createSession_succeeds (env : Env)
    (hR : ∀ t x, ∃ y, env.ResolveUDPAddr t x = .ok y)
    (hD : ∀ t l r, ∃ c, env.Dial t l r = .ok (Conn.udp c))
    (s : ProxyServer) (tr : List Event) (addr : String) :
    ∃ conn tr1, createSession env s tr addr = (.ok conn, tr1) := by
  obtain ⟨rc, tr1, h⟩ := dialUDP_succeeds env hR hD tr "" s.RemoteAddr
  by_cases hlen : 0 < s.config.ReplyAddrAliases.length
  · obtain ⟨cs, tr2, h2⟩ :=
      dialAliases_succeeds env hR hD rc.laddr s.config.ReplyAddrAliases tr1 []
    refine ⟨{ laddr := addr, rconn := rc, aconns := cs }, tr2, ?_⟩
    simp only [createSession, h, hlen, if_true, h2]
  · refine ⟨{ laddr := addr, rconn := rc, aconns := [] }, tr1, ?_⟩
    simp only [createSession, h, hlen, if_false]

theorem ServePacketIter_round (env : Env) (hW : ∀ tr c p, env.Write tr c p = none)
    (hR : ∀ t x, ∃ y, env.ResolveUDPAddr t x = .ok y)
    (hD : ∀ t l r, ∃ c, env.Dial t l r = .ok (Conn.udp c))
    (sys : Sys) (buf : Payload) (a : String) (d : Payload) :
    ∃ sys1 buf1 conn, ServePacketIter env sys buf (.datagram a d) = .next sys1 buf1
      ∧ buf1.length = buf.length
      ∧ Map.get sys1.srv.udpClients a = some conn
      ∧ writesOf sys1.trace = writesOf sys.trace ++ [(conn.rconn, d.take buf.length)]
      ∧ (∀ conn0, Map.get sys.srv.udpClients a = some conn0 → conn = conn0) := by
  cases hget : Map.get sys.srv.udpClients a with
  | some conn0 =>
    refine ⟨Sys.mk sys.srv (sys.trace ++ [Event.written conn0.rconn (d.take buf.length)]),
      d.take (min d.length buf.length) ++ buf.drop (min d.length buf.length), conn0,
      ?_, length_read d buf, hget, ?_, ?_⟩
    · rw [ServePacketIter_found env sys buf d a conn0 hget, forward_read, hW]
    · show writesOf (sys.trace ++ [Event.written conn0.rconn (d.take buf.length)]) = _
      rw [writesOf_append]
      rfl
    · intro conn1 h1
      exact (Option.some.inj h1)
  | none =>
    obtain ⟨conn, tr1, hdial⟩ := createSession_succeeds env hR hD sys.srv sys.trace a
    obtain ⟨new, h3, h4⟩ := createSession_events env sys.srv sys.trace a
    rw [hdial] at h3
    simp only at h3
    refine ⟨Sys.mk { sys.srv with udpClients := Map.set sys.srv.udpClients a conn }
        (tr1 ++ [Event.waiting conn] ++ [Event.written conn.rconn (d.take buf.length)]),
      d.take (min d.length buf.length) ++ buf.drop (min d.length buf.length), conn,
      ?_, length_read d buf, ?_, ?_, ?_⟩
    · rw [ServePacketIter_created env sys buf d a conn tr1 hget hdial, forward_read, hW]
    · exact Map.get_set_self _ _ _
    · show writesOf (tr1 ++ [Event.waiting conn]
          ++ [Event.written conn.rconn (d.take buf.length)]) = _
      rw [writesOf_append, writesOf_append, h3, writesOf_append, writesOf_dial new h4]
      simp [writesOf]
    · intro conn0 h0
      exact Option.noConfusion h0

theorem writesOf_closed (cs : List UDPConn) : writesOf (cs.map Event.closed) = [] := by
  induction cs with
  | nil => rfl
  | cons c cs ih => simpa [writesOf] using ih

theorem handleClosedIter_writes (sys : Sys) (clientAddr : String) :
    writesOf (handleClosedIter sys clientAddr).trace = writesOf sys.trace := by
  cases h : Map.get sys.srv.udpClients clientAddr with
  | none => rw [handleClosedIter_absent sys clientAddr h]
  | some conn =>
    have htr : (handleClosedIter sys clientAddr).trace
        = sys.trace ++ (conn.rconn :: conn.aconns).map Event.closed := by
      simp [handleClosedIter, h, Close_trace]
    rw [htr, writesOf_append, writesOf_closed, List.append_nil]

theorem handleClosedIter_get_ne (sys : Sys) (clientAddr a : String) (hne : clientAddr ≠ a) :
    Map.get (handleClosedIter sys clientAddr).srv.udpClients a = Map.get sys.srv.udpClients a := by
  cases h : Map.get sys.srv.udpClients clientAddr with
  | none => rw [handleClosedIter_absent sys clientAddr h]
  | some conn =>
    simp only [handleClosedIter, h]
    exact Map.get_delete_ne _ _ _ (fun h1 => hne h1.symm)

theorem ServePacketRun_append (env : Env) :
    ∀ (xs : List Step) (sys : Sys) (buf : Payload) (ys : List Step) (sys1 : Sys)
      (buf1 : Payload),
      ServePacketRun env sys buf xs = .next sys1 buf1 →
      ServePacketRun env sys buf (xs ++ ys) = ServePacketRun env sys1 buf1 ys := by
  intro xs
  induction xs with
  | nil =>
    intro sys buf ys sys1 buf1 h
    simp only [ServePacketRun, Outcome.next.injEq] at h
    rw [List.nil_append, h.1, h.2]
  | cons x xs ih =>
    intro sys buf ys sys1 buf1 h
    cases x with
    | closed addr =>
      rw [ServePacketRun] at h
      rw [List.cons_append, ServePacketRun]
      exact ih _ _ ys sys1 buf1 h
    | read ev =>
      rw [ServePacketRun] at h
      rw [List.cons_append, ServePacketRun]
      cases hi : ServePacketIter env sys buf ev with
      | next sys2 buf2 =>
        rw [hi] at h
        exact ih _ _ ys sys1 buf1 h
      | returned err sys2 => rw [hi] at h; exact Outcome.noConfusion h
      | panicked sys2 => rw [hi] at h; exact Outcome.noConfusion h

theorem ServePacketRun_payloads (env : Env) (hW : ∀ tr c p, env.Write tr c p = none)
    (hR : ∀ t x, ∃ y, env.ResolveUDPAddr t x = .ok y)
    (hD : ∀ t l r, ∃ c, env.Dial t l r = .ok (Conn.udp c)) (a : String) :
    ∀ (steps : List Step) (sys : Sys) (buf : Payload),
      (∀ ev, Step.read ev ∈ steps → ∃ d, ev = ReadEvent.datagram a d) →
      ∃ sys1 buf1, ServePacketRun env sys buf steps = .next sys1 buf1
        ∧ buf1.length = buf.length
        ∧ (writesOf sys1.trace).map Prod.snd
          = (writesOf sys.trace).map Prod.snd
            ++ (payloadsOf steps).map (List.take buf.length) := by
  intro steps
  induction steps with
  | nil => intro sys buf _; exact ⟨sys, buf, rfl, rfl, by simp [payloadsOf]⟩
  | cons x steps ih =>
    intro sys buf hs
    have hs1 : ∀ ev, Step.read ev ∈ steps → ∃ d, ev = ReadEvent.datagram a d :=
      fun ev h => hs ev (List.mem_cons_of_mem _ h)
    cases x with
    | closed addr =>
      obtain ⟨sys1, buf1, h1, h2, h3⟩ := ih (handleClosedIter sys addr) buf hs1
      refine ⟨sys1, buf1, by rw [ServePacketRun]; exact h1, h2, ?_⟩
      rw [h3, handleClosedIter_writes]
      rfl
    | read ev =>
      obtain ⟨d, hd⟩ := hs ev (List.mem_cons_self _ _)
      subst hd
      obtain ⟨sys2, buf2, conn, h4, h5, _, h7, _⟩ :=
        ServePacketIter_round env hW hR hD sys buf a d
      obtain ⟨sys1, buf1, h1, h2, h3⟩ := ih sys2 buf2 hs1
      refine ⟨sys1, buf1, by rw [ServePacketRun, h4]; exact h1, by rw [h2, h5], ?_⟩
      rw [h3, h7, h5]
      simp [payloadsOf]

theorem ServePacketRun_session_kept (env : Env) (hW : ∀ tr c p, env.Write tr c p = none)
    (hR : ∀ t x, ∃ y, env.ResolveUDPAddr t x = .ok y)
    (hD : ∀ t l r, ∃ c, env.Dial t l r = .ok (Conn.udp c)) (a : String) (conn : udpProxy) :
    ∀ (steps : List Step) (sys : Sys) (buf : Payload),
      (∀ ev, Step.read ev ∈ steps → ∃ d, ev = ReadEvent.datagram a d) →
      Step.closed a ∉ steps →
      Map.get sys.srv.udpClients a = some conn →
      ∃ sys1 buf1, ServePacketRun env sys buf steps = .next sys1 buf1
        ∧ Map.get sys1.srv.udpClients a = some conn
        ∧ writesOf sys1.trace
          = writesOf sys.trace
            ++ (payloadsOf steps).map (fun d => (conn.rconn, d.take buf.length)) := by
  intro steps
  induction steps with
  | nil => intro sys buf _ _ h; exact ⟨sys, buf, rfl, h, by simp [payloadsOf]⟩
  | cons x steps ih =>
    intro sys buf hs hc hget
    have hs1 : ∀ ev, Step.read ev ∈ steps → ∃ d, ev = ReadEvent.datagram a d :=
      fun ev h => hs ev (List.mem_cons_of_mem _ h)
    have hc1 : Step.closed a ∉ steps := fun h => hc (List.mem_cons_of_mem _ h)
    cases x with
    | closed addr =>
      have hne : addr ≠ a := fun h => hc (h ▸ List.mem_cons_self _ _)
      obtain ⟨sys1, buf1, h1, h2, h3⟩ := ih (handleClosedIter sys addr) buf hs1 hc1
        (by rw [handleClosedIter_get_ne sys addr a hne]; exact hget)
      refine ⟨sys1, buf1, by rw [ServePacketRun]; exact h1, h2, ?_⟩
      rw [h3, handleClosedIter_writes]
      rfl
    | read ev =>
      obtain ⟨d, hd⟩ := hs ev (List.mem_cons_self _ _)
      subst hd
      obtain ⟨sys2, buf2, conn2, h4, h5, h6, h7, h8⟩ :=
        ServePacketIter_round env hW hR hD sys buf a d
      have hconn : conn2 = conn := h8 conn hget
      subst hconn
      obtain ⟨sys1, buf1, h1, h2, h3⟩ := ih sys2 buf2 hs1 hc1 h6
      refine ⟨sys1, buf1, by rw [ServePacketRun, h4]; exact h1, h2, ?_⟩
      rw [h3, h7, h5]
      simp [payloadsOf]

theorem ServePacketRun_not_reaped (env : Env) (hW : ∀ tr c p, env.Write tr c p = none)
    (hR : ∀ t x, ∃ y, env.ResolveUDPAddr t x = .ok y)
    (hD : ∀ t l r, ∃ c, env.Dial t l r = .ok (Conn.udp c)) (a : String) :
    ∀ (steps : List Step) (sys : Sys) (buf : Payload),
      (∀ ev, Step.read ev ∈ steps → ∃ d, ev = ReadEvent.datagram a d) →
      Step.closed a ∉ steps →
      ∃ sys1 buf1 conn, ServePacketRun env sys buf steps = .next sys1 buf1
        ∧ writesOf sys1.trace
          = writesOf sys.trace
            ++ (payloadsOf steps).map (fun d => (conn.rconn, d.take buf.length))
        ∧ (payloadsOf steps ≠ [] → Map.get sys1.srv.udpClients a = some conn) := by
  intro steps
  induction steps with
  | nil =>
    intro sys buf _ _
    exact ⟨sys, buf, ⟨"", ⟨0, "", ""⟩, []⟩, rfl, by simp [payloadsOf],
      fun h => absurd rfl h⟩
  | cons x steps ih =>
    intro sys buf hs hc
    have hs1 : ∀ ev, Step.read ev ∈ steps → ∃ d, ev = ReadEvent.datagram a d :=
      fun ev h => hs ev (List.mem_cons_of_mem _ h)
    have hc1 : Step.closed a ∉ steps := fun h => hc (List.mem_cons_of_mem _ h)
    cases x with
    | closed addr =>
      obtain ⟨sys1, buf1, conn, h1, h2, h3⟩ := ih (handleClosedIter sys addr) buf hs1 hc1
      refine ⟨sys1, buf1, conn, by rw [ServePacketRun]; exact h1, ?_, h3⟩
      rw [h2, handleClosedIter_writes]
      rfl
    | read ev =>
      obtain ⟨d, hd⟩ := hs ev (List.mem_cons_self _ _)
      subst hd
      obtain ⟨sys2, buf2, conn, h4, h5, h6, h7, _⟩ :=
        ServePacketIter_round env hW hR hD sys buf a d
      obtain ⟨sys1, buf1, h1, h2, h3⟩ :=
        ServePacketRun_session_kept env hW hR hD a conn steps sys2 buf2 hs1 hc1 h6
      refine ⟨sys1, buf1, conn, by rw [ServePacketRun, h4]; exact h1, ?_, fun _ => h2⟩
      rw [h3, h7, h5]
      simp [payloadsOf]

/-- C3, as the code has it. Take any interleaving of rounds of the loop of `ServePacket` on
datagrams read from a single client address with steps of the reaper, in a network where no
resolution, dial or write fails.  Then `ServePacket` goes through all of it, and the messages
it writes are, one per datagram and in the order read, the payloads cut to the 4096 bytes of
the read buffer, so byte for byte the payloads that have at most 4096 bytes.  The message
of each datagram goes to the primary connection of the session the table holds for the
client after that round: the session it held before, or a new one if it held none, as after
a reaping.  If the client's session is not reaped in between, all messages go to the primary
connection of one session. -/
theorem ServePacket_forwarding (env : Env) (hW : ∀ tr c p, env.Write tr c p = none)
    (hR : ∀ t x, ∃ y, env.ResolveUDPAddr t x = .ok y)
    (hD : ∀ t l r, ∃ c, env.Dial t l r = .ok (Conn.udp c))
    (s : ProxyServer) (a : String) (steps : List Step)
    (hsingle : ∀ ev, Step.read ev ∈ steps → ∃ d, ev = ReadEvent.datagram a d) :
    (∃ sys1 buf1, ServePacket env s steps = .next sys1 buf1
        ∧ (writesOf sys1.trace).map Prod.snd = (payloadsOf steps).map (List.take 4096)
        ∧ ((∀ d ∈ payloadsOf steps, d.length ≤ 4096) →
            (writesOf sys1.trace).map Prod.snd = payloadsOf steps))
      ∧ (∀ pre d post, steps = pre ++ Step.read (.datagram a d) :: post →
          ∃ sys0 buf0 sys1 buf1 conn,
            ServePacket env s pre = .next sys0 buf0
              ∧ ServePacket env s (pre ++ [Step.read (.datagram a d)]) = .next sys1 buf1
              ∧ Map.get sys1.srv.udpClients a = some conn
              ∧ writesOf sys1.trace = writesOf sys0.trace ++ [(conn.rconn, d.take 4096)]
              ∧ (∀ conn0, Map.get sys0.srv.udpClients a = some conn0 → conn = conn0))
      ∧ (Step.closed a ∉ steps →
          ∃ sys1 buf1 conn, ServePacket env s steps = .next sys1 buf1
            ∧ writesOf sys1.trace
              = (payloadsOf steps).map (fun d => (conn.rconn, d.take 4096))
            ∧ (payloadsOf steps ≠ [] → Map.get sys1.srv.udpClients a = some conn)) := by
  refine ⟨?_, ?_, ?_⟩
  · obtain ⟨sys1, buf1, h1, _, h3⟩ :=
      ServePacketRun_payloads env hW hR hD a steps { srv := s, trace := [] } serveBuf hsingle
    rw [serveBuf_length] at h3
    have h4 : (writesOf sys1.trace).map Prod.snd = (payloadsOf steps).map (List.take 4096) := by
      rw [h3]; rfl
    refine ⟨sys1, buf1, h1, h4, ?_⟩
    intro hlen
    rw [h4]
    conv_rhs => rw [← List.map_id (payloadsOf steps)]
    apply List.map_congr_left
    intro d hd
    rw [List.take_of_length_le (hlen d hd)]
    rfl
  · intro pre d post hsteps
    have hpre : ∀ ev, Step.read ev ∈ pre → ∃ d, ev = ReadEvent.datagram a d := by
      intro ev hev
      apply hsingle ev
      rw [hsteps]
      exact List.mem_append_left _ hev
    obtain ⟨sys0, buf0, h1, h2, _⟩ :=
      ServePacketRun_payloads env hW hR hD a pre { srv := s, trace := [] } serveBuf hpre
    obtain ⟨sys1, buf1, conn, h4, _, h6, h7, h8⟩ :=
      ServePacketIter_round env hW hR hD sys0 buf0 a d
    rw [h2, serveBuf_length] at h7
    refine ⟨sys0, buf0, sys1, buf1, conn, h1, ?_, h6, h7, h8⟩
    rw [ServePacket, ServePacketRun_append env pre _ _ _ sys0 buf0 h1, ServePacketRun, h4]
    rfl
  · intro hc
    obtain ⟨sys1, buf1, conn, h1, h2, h3⟩ :=
      ServePacketRun_not_reaped env hW hR hD a steps { srv := s, trace := [] } serveBuf
        hsingle hc
    rw [serveBuf_length] at h2
    exact ⟨sys1, buf1, conn, h1, by rw [h2]; rfl, h3⟩

theorem ServePacket_forwarding_witness :
    (∀ tr c p, exEnv.Write tr c p = none)
      ∧ (∀ t x, ∃ y, exEnv.ResolveUDPAddr t x = .ok y)
      ∧ (∀ t l r, ∃ c, exEnv.Dial t l r = .ok (Conn.udp c))
      ∧ (∀ ev, Step.read ev ∈ exSteps → ∃ d, ev = ReadEvent.datagram "203.0.113.5:5000" d)
      ∧ ∃ sys1 buf1, ServePacket exEnv exServer exSteps = .next sys1 buf1
          ∧ (writesOf sys1.trace).map Prod.snd = (payloadsOf exSteps).map (List.take 4096)
          ∧ ((∀ d ∈ payloadsOf exSteps, d.length ≤ 4096) →
              (writesOf sys1.trace).map Prod.snd = payloadsOf exSteps) :=
  ⟨fun _ _ _ => rfl, fun _ x => ⟨x, rfl⟩, fun _ _ _ => ⟨_, rfl⟩,
    fun ev h => by
      simp only [exSteps, List.mem_cons, Step.read.injEq, List.mem_singleton] at h
      rcases h with h | h | h
      · exact ⟨_, h⟩
      · exact Step.noConfusion h
      · rcases h with h | h
        · exact ⟨_, h⟩
        · simp at h,
    (ServePacket_forwarding exEnv (fun _ _ _ => rfl) (fun _ x => ⟨x, rfl⟩)
      (fun _ _ _ => ⟨_, rfl⟩) exServer "203.0.113.5:5000" exSteps
      (fun ev h => by
        simp only [exSteps, List.mem_cons, Step.read.injEq, List.mem_singleton] at h
        rcases h with h | h | h
        · exact ⟨_, h⟩
        · exact Step.noConfusion h
        · rcases h with h | h
          · exact ⟨_, h⟩
          · simp at h)).1⟩

/-- C3 fails as stated: a datagram with a payload of 4097 bytes is forwarded as a message of
4096 bytes, which is not the payload. -/
theorem ServePacket_truncation_counterexample :
    writesOf (ServePacket exEnv exServer
        [.read (.datagram "203.0.113.5:5000" (List.replicate 4097 7))]).sys.trace
        = [(exRconn, List.replicate 4096 7)]
      ∧ List.replicate 4096 (7 : UInt8) ≠ List.replicate 4097 7 := by
  constructor
  · rw [ServePacket, ServePacketRun,
      ServePacketIter_created exEnv { srv := exServer, trace := [] } serveBuf
        (List.replicate 4097 7) "203.0.113.5:5000" exProxy exDialTrace (by decide) rfl,
      forward_read]
    show writesOf (exDialTrace ++ [Event.waiting exProxy]
      ++ [Event.written exRconn (List.take serveBuf.length (List.replicate 4097 7))]) = _
    rw [serveBuf_length, List.take_replicate, writesOf_append, writesOf_append]
    rfl
  · intro h
    have h1 := congrArg List.length h
    rw [List.length_replicate, List.length_replicate] at h1
    exact absurd h1 (by decide)

theorem ServePacketRun_reaped_between (buf : Payload) (hbuf : 4 ≤ buf.length) :
    writesOf (ServePacketRun exEnv { srv := exServer, trace := [] } buf exSteps).sys.trace
      = [(exRconn, [112, 105, 110, 103]),
          (⟨9, "192.0.2.1:40000", "198.51.100.7:22017"⟩, [112, 111, 110, 103])] := by
  have hmin : min 4 buf.length = 4 := Nat.min_eq_left hbuf
  have hle : 4 ≤ 4 + (buf.length - 4) := by omega
  simp [ServePacketRun, exSteps, ServePacketIter, ReadFrom, forward, createSession, dialUDP,
    dialAliases, handleClosedIter, udpProxy.Close, closeConn, Map.get, Map.set, Map.delete,
    exEnv, exServer, NewProxyServer, exConfig, writesOf, Outcome.sys, hmin, hle, exRconn,
    Except.map]

/-- With the session reaped between two datagrams of a client, the second datagram goes to
the primary connection of a newly dialed session, not to the closed one. -/
theorem ServePacket_reaped_between :
    writesOf (ServePacket exEnv exServer exSteps).sys.trace
      = [(exRconn, [112, 105, 110, 103]),
          (⟨9, "192.0.2.1:40000", "198.51.100.7:22017"⟩, [112, 111, 110, 103])] :=
  ServePacketRun_reaped_between serveBuf (by rw [serveBuf_length]; decide)

/-! ## The plugin glue -/

theorem splitChars_ne_nil (sep : Char) (cs : List Char) : splitChars sep cs ≠ [] := by
  cases cs with
  | nil => simp [splitChars]
  | cons c cs =>
    rw [splitChars]
    split
    · simp
    · split <;> simp

theorem stringsSplit_eq (k : String) :
    stringsSplit k '~' = keyListenType k :: keyParams k := by
  unfold keyListenType keyParams
  have h : stringsSplit k '~' ≠ [] := by
    unfold stringsSplit
    simpa using splitChars_ne_nil '~' k.data
  cases hs : stringsSplit k '~' with
  | nil => exact absurd hs h
  | cons x xs => rfl

theorem buildConfigs_rejected (c : caddyContext) (k : String) (v : configTokens)
    (rest : List (String × configTokens)) (h : keyRejected k) :
    ∃ err, buildConfigs c ((k, v) :: rest) = .error err c := by
  rw [buildConfigs, stringsSplit_eq]
  simp only
  rcases h with h | h
  · exact ⟨_, by rw [if_pos h]⟩
  · by_cases h0 : (keyParams k).length = 0
    · exact ⟨_, by rw [if_pos h0]⟩
    · exact ⟨_, by rw [if_neg h0, if_pos h]⟩

theorem buildConfigs_accepted (c : caddyContext) (k : String) (v : configTokens)
    (rest : List (String × configTokens)) (h : ¬ keyRejected k) :
    buildConfigs c ((k, v) :: rest)
      = buildConfigs
          ({ c with heap := c.heap ++ [configOf (k, v)] }.saveConfig k c.heap.length) rest := by
  have h0 : ¬ (keyParams k).length = 0 := fun h0 => h (Or.inl h0)
  have h1 : ¬ (keyListenType k = "proxy" ∧ (keyParams k).length < 2) := fun h1 => h (Or.inr h1)
  rw [buildConfigs, stringsSplit_eq]
  simp only
  rw [if_neg h0, if_neg h1]
  rfl

theorem buildConfigs_error_of_rejected :
    ∀ (entries : List (String × configTokens)) (c : caddyContext),
      (∃ kv ∈ entries, keyRejected kv.1) → ∃ err c1, buildConfigs c entries = .error err c1 := by
  intro entries
  induction entries with
  | nil => intro c h; obtain ⟨kv, hkv, _⟩ := h; simp at hkv
  | cons e entries ih =>
    intro c h
    obtain ⟨k, v⟩ := e
    by_cases hk : keyRejected k
    · obtain ⟨err, he⟩ := buildConfigs_rejected c k v entries hk
      exact ⟨err, c, he⟩
    · rw [buildConfigs_accepted c k v entries hk]
      apply ih
      obtain ⟨kv, hkv, hr⟩ := h
      rcases List.mem_cons.mp hkv with h1 | h1
      · subst h1; exact absurd hr hk
      · exact ⟨kv, h1, hr⟩

theorem buildConfigs_saved :
    ∀ (entries : List (String × configTokens)) (c : caddyContext),
      ∃ saved c1, (buildConfigs c entries).ctx = some c1
        ∧ saved <+: entries
        ∧ c1.heap = c.heap ++ saved.map configOf
        ∧ c1.configs = c.configs ++ List.range' c.heap.length saved.length
        ∧ (∀ kv ∈ saved, ¬ keyRejected kv.1)
        ∧ (∀ c2, buildConfigs c entries = .ok c2 → saved = entries) := by
  intro entries
  induction entries with
  | nil =>
    intro c
    exact ⟨[], c, rfl, List.prefix_refl _, by simp, by simp, by simp, fun _ _ => rfl⟩
  | cons e entries ih =>
    intro c
    obtain ⟨k, v⟩ := e
    by_cases hk : keyRejected k
    · obtain ⟨err, he⟩ := buildConfigs_rejected c k v entries hk
      refine ⟨[], c, by rw [he]; rfl, List.nil_prefix, by simp, by simp, by simp, ?_⟩
      intro c2 h2
      rw [he] at h2
      exact Inspected.noConfusion h2
    · rw [buildConfigs_accepted c k v entries hk]
      obtain ⟨saved, c1, h1, h2, h3, h4, h5, h6⟩ :=
        ih ({ c with heap := c.heap ++ [configOf (k, v)] }.saveConfig k c.heap.length)
      refine ⟨(k, v) :: saved, c1, h1, ?_, ?_, ?_, ?_, ?_⟩
      · exact (List.prefix_cons_inj (k, v)).mpr h2
      · rw [h3]; simp [caddyContext.saveConfig]
      · rw [h4]
        simp [caddyContext.saveConfig, List.range'_succ]
      · intro kv hkv
        rcases List.mem_cons.mp hkv with h | h
        · subst h; exact hk
        · exact h5 kv h
      · intro c2 hc2
        rw [h6 c2 hc2]

theorem Map.mem_set {β : Type} (m : List (String × β)) (k : String) (v : β)
    (e : String × β) (h : e ∈ Map.set m k v) : e = (k, v) ∨ e ∈ m := by
  rcases List.mem_cons.mp h with h1 | h1
  · exact Or.inl h1
  · exact Or.inr (List.mem_filter.mp h1).1

theorem Map.key_mem_set {β : Type} (m : List (String × β)) (k : String) (v : β)
    (key : String) (h : key = k ∨ key ∈ m.map Prod.fst) :
    key ∈ (Map.set m k v).map Prod.fst := by
  by_cases hk : key = k
  · subst hk; simp [Map.set]
  · rcases h with h | h
    · exact absurd h hk
    · obtain ⟨e, he, h1⟩ := List.mem_map.mp h
      apply List.mem_map.mpr
      refine ⟨e, List.mem_cons_of_mem _ (List.mem_filter.mpr ⟨he, ?_⟩), h1⟩
      simpa [h1] using hk

theorem gatherTokens_keys (toLowerRune : Char → Char) (c : caddyContext) :
    ∀ (serverBlocks : List ServerBlock) (acc sbTokens : List (String × configTokens)),
      gatherTokens toLowerRune c serverBlocks acc = .ok sbTokens →
      (∀ key ∈ acc.map Prod.fst, key ∈ sbTokens.map Prod.fst)
        ∧ (∀ sb ∈ serverBlocks, blockKey toLowerRune sb.Keys ∈ sbTokens.map Prod.fst)
        ∧ (∀ kv ∈ sbTokens, kv ∈ acc
            ∨ ∃ sb ∈ serverBlocks, kv.1 = blockKey toLowerRune sb.Keys) := by
  intro serverBlocks
  induction serverBlocks with
  | nil =>
    intro acc sbTokens h
    simp only [gatherTokens, Except.ok.injEq] at h
    subst h
    exact ⟨fun _ h => h, by simp, fun kv h => Or.inl h⟩
  | cons sb rest ih =>
    intro acc sbTokens h
    rw [gatherTokens] at h
    split at h
    · exact Except.noConfusion h
    · obtain ⟨h1, h2, h3⟩ := ih _ sbTokens h
      refine ⟨?_, ?_, ?_⟩
      · intro key hkey
        exact h1 key (Map.key_mem_set _ _ _ _ (Or.inr hkey))
      · intro sb1 hsb1
        rcases List.mem_cons.mp hsb1 with h4 | h4
        · subst h4
          exact h1 _ (Map.key_mem_set _ _ _ _ (Or.inl rfl))
        · exact h2 sb1 h4
      · intro kv hkv
        rcases h3 kv hkv with h4 | ⟨sb1, h4, h5⟩
        · rcases Map.mem_set _ _ _ _ h4 with h6 | h6
          · exact Or.inr ⟨sb, List.mem_cons_self _ _, by rw [h6]⟩
          · exact Or.inl h6
        · exact Or.inr ⟨sb1, List.mem_cons_of_mem _ h4, h5⟩

theorem splitChars_no_sep (sep : Char) (w : List Char) (h : sep ∉ w) :
    splitChars sep w = [w] := by
  induction w with
  | nil => rfl
  | cons c w ih =>
    have hc : c ≠ sep := fun hc => h (hc ▸ List.mem_cons_self _ _)
    have hw : sep ∉ w := fun hw => h (List.mem_cons_of_mem _ hw)
    rw [splitChars, if_neg hc, ih hw]

theorem splitChars_append (sep : Char) (w rest : List Char) (h : sep ∉ w) :
    splitChars sep (w ++ sep :: rest) = w :: splitChars sep rest := by
  induction w with
  | nil => simp [splitChars]
  | cons c w ih =>
    have hc : c ≠ sep := fun hc => h (hc ▸ List.mem_cons_self _ _)
    have hw : sep ∉ w := fun hw => h (List.mem_cons_of_mem _ hw)
    rw [List.cons_append, splitChars, if_neg hc, ih hw]

theorem splitChars_keyTail (toLowerRune : Char → Char) :
    ∀ (ks : List String) (w : List Char), '~' ∉ w →
      (∀ k ∈ ks, '~' ∉ (stringsToLower toLowerRune k).data) →
      splitChars '~' (w ++ keyTail toLowerRune ks)
        = w :: ks.map (fun k => (stringsToLower toLowerRune k).data) := by
  intro ks
  induction ks with
  | nil =>
    intro w hw _
    rw [keyTail, List.append_nil, splitChars_no_sep '~' w hw]
    rfl
  | cons k ks ih =>
    intro w hw hks
    rw [keyTail, splitChars_append '~' w _ hw,
      ih _ (hks k (List.mem_cons_self _ _)) (fun x hx => hks x (List.mem_cons_of_mem _ hx))]
    rfl

theorem blockKey_foldl (toLowerRune : Char → Char) :
    ∀ (ks : List String) (acc : String), acc ≠ "" →
      (ks.foldl
        (fun key k =>
          let k := stringsToLower toLowerRune k
          if key = "" then k else key ++ ("~" ++ k))
        acc).data = acc.data ++ keyTail toLowerRune ks := by
  intro ks
  induction ks with
  | nil => intro acc _; simp [keyTail]
  | cons k ks ih =>
    intro acc hacc
    have hne : acc ++ ("~" ++ stringsToLower toLowerRune k) ≠ "" := by
      intro h
      have h1 := congrArg String.data h
      rw [String.data_append, String.data_append] at h1
      simp at h1
    rw [List.foldl_cons]
    simp only [if_neg hacc]
    rw [ih _ hne, String.data_append, String.data_append, keyTail]
    simp

theorem blockKey_split (toLowerRune : Char → Char) (keys : List String)
    (hplain : ∀ k ∈ keys, plainKey toLowerRune k) (hne : keys ≠ []) :
    stringsSplit (blockKey toLowerRune keys) '~' = keys.map (stringsToLower toLowerRune) := by
  cases keys with
  | nil => exact absurd rfl hne
  | cons k ks =>
    have hk := hplain k (List.mem_cons_self _ _)
    have hdata : (blockKey toLowerRune (k :: ks)).data
        = (stringsToLower toLowerRune k).data ++ keyTail toLowerRune ks := by
      unfold blockKey
      rw [List.foldl_cons]
      simp only [if_true]
      exact blockKey_foldl toLowerRune ks _ hk.1
    unfold stringsSplit
    rw [hdata, splitChars_keyTail toLowerRune ks _ hk.2
      (fun x hx => (hplain x (List.mem_cons_of_mem _ hx)).2)]
    simp

theorem keyRejected_plain (toLowerRune : Char → Char) (keys : List String)
    (hplain : ∀ k ∈ keys, plainKey toLowerRune k)
    (hfew : keys.length < 2
      ∨ (keys.head?.map (stringsToLower toLowerRune) = some "proxy" ∧ keys.length < 3)) :
    keyRejected (blockKey toLowerRune keys) := by
  cases keys with
  | nil =>
    left
    show (keyParams "").length = 0
    decide
  | cons k ks =>
    have hs := blockKey_split toLowerRune (k :: ks) hplain (by simp)
    unfold keyRejected keyParams keyListenType
    rw [hs]
    simp only [List.map_cons, List.tail_cons, List.headD_cons, List.length_map]
    rcases hfew with h | ⟨h1, h2⟩
    · left
      simp only [List.length_cons] at h
      omega
    · right
      simp only [List.head?_cons, Option.map_some', Option.some.injEq] at h1
      simp only [List.length_cons] at h2
      exact ⟨h1, by omega⟩

theorem makeServersLoop_ok (heap : List Config) :
    ∀ (ps : List Nat) (acc : List ProxyServer),
      (∀ p ∈ ps, ∃ cfg, heap[p]? = some cfg ∧ 2 ≤ cfg.Parameters.length) →
      ∃ servers, makeServersLoop heap ps acc = some servers
        ∧ servers.length = acc.length + ps.length := by
  intro ps
  induction ps with
  | nil => intro acc _; exact ⟨acc, rfl, rfl⟩
  | cons p ps ih =>
    intro acc h
    obtain ⟨cfg, h1, h2⟩ := h p (List.mem_cons_self _ _)
    obtain ⟨l, r, rest, h3⟩ : ∃ l r rest, cfg.Parameters = l :: r :: rest := by
      cases hp : cfg.Parameters with
      | nil => rw [hp] at h2; simp at h2
      | cons l t =>
        cases t with
        | nil => rw [hp] at h2; simp at h2
        | cons r rest => exact ⟨l, r, rest, rfl⟩
    obtain ⟨servers, h4, h5⟩ :=
      ih (acc ++ [NewProxyServer l r cfg]) (fun q hq => h q (List.mem_cons_of_mem _ hq))
    refine ⟨servers, ?_, ?_⟩
    · rw [makeServersLoop, h1]
      simp only [h3, List.getElem?_cons_zero, List.getElem?_cons_succ]
      exact h4
    · rw [h5]; simp; omega

theorem keyAccepted_length (k : String) (h : ¬ keyRejected k) :
    1 ≤ (keyParams k).length ∧ (keyListenType k = "proxy" → 2 ≤ (keyParams k).length) := by
  unfold keyRejected at h
  constructor
  · by_contra h1
    exact h (Or.inl (by omega))
  · intro hp
    by_contra h1
    exact h (Or.inr ⟨hp, by omega⟩)

theorem InspectServerBlocks_saved (toLowerRune : Char → Char)
    (rangeOrder : List (String × configTokens) → List (String × configTokens))
    (hperm : ∀ m, (rangeOrder m).Perm m) (c : caddyContext) (serverBlocks : List ServerBlock) :
    ∃ (saved : List (String × configTokens)) (c1 : caddyContext),
          (InspectServerBlocks toLowerRune rangeOrder c serverBlocks).ctx = some c1
      ∧ c1.heap = c.heap ++ saved.map configOf
      ∧ c1.configs = c.configs ++ List.range' c.heap.length saved.length
      ∧ (∀ kv ∈ saved, (∃ sb ∈ serverBlocks, kv.1 = blockKey toLowerRune sb.Keys)
          ∧ ¬ keyRejected kv.1)
      ∧ (∀ c2, InspectServerBlocks toLowerRune rangeOrder c serverBlocks = .ok c2 →
          ∀ sb ∈ serverBlocks, blockKey toLowerRune sb.Keys ∈ saved.map Prod.fst) := by
  unfold InspectServerBlocks
  cases hg : gatherTokens toLowerRune c serverBlocks [] with
  | error err =>
    refine ⟨[], c, rfl, by simp, by simp, by simp, ?_⟩
    intro c2 h2
    exact Inspected.noConfusion h2
  | ok m =>
    obtain ⟨_, hg2, hg3⟩ := gatherTokens_keys toLowerRune c serverBlocks [] m hg
    obtain ⟨saved, c1, h1, h2, h3, h4, h5, h6⟩ := buildConfigs_saved (rangeOrder m) c
    refine ⟨saved, c1, h1, h3, h4, ?_, ?_⟩
    · intro kv hkv
      refine ⟨?_, h5 kv hkv⟩
      have hm : kv ∈ m := (hperm m).mem_iff.mp (h2.subset hkv)
      rcases hg3 kv hm with h | h
      · simp at h
      · exact h
    · intro c2 hc2 sb hsb
      rw [h6 c2 hc2]
      exact ((hperm m).map Prod.fst).mem_iff.mpr (hg2 sb hsb)

theorem InspectServerBlocks_error_of_rejected (toLowerRune : Char → Char)
    (rangeOrder : List (String × configTokens) → List (String × configTokens))
    (hperm : ∀ m, (rangeOrder m).Perm m) (c : caddyContext) (serverBlocks : List ServerBlock)
    (sb : ServerBlock) (hsb : sb ∈ serverBlocks)
    (hrej : keyRejected (blockKey toLowerRune sb.Keys)) :
    ∃ err c1, InspectServerBlocks toLowerRune rangeOrder c serverBlocks = .error err c1 := by
  unfold InspectServerBlocks
  cases hg : gatherTokens toLowerRune c serverBlocks [] with
  | error err => exact ⟨err, c, rfl⟩
  | ok m =>
    obtain ⟨_, hg2, _⟩ := gatherTokens_keys toLowerRune c serverBlocks [] m hg
    apply buildConfigs_error_of_rejected
    have hk := ((hperm m).map Prod.fst).mem_iff.mpr (hg2 sb hsb)
    obtain ⟨kv, hkv, hfst⟩ := List.mem_map.mp hk
    exact ⟨kv, hkv, by rw [hfst]; exact hrej⟩

/-- What `InspectServerBlocks` does guarantee.  It never panics.  It returns an error if the
joined key of some block has no parameter after the listen type, or has listen type `proxy`
and fewer than two parameters; for a block whose lower-cased keys are non-empty and free of
`~` that is: fewer than two keys, or first key `proxy` and fewer than three keys.  Every
Config it saves is the Config of the joined key of one of the blocks, has at least one
Parameter, and has at least two when the listen type of that key is `proxy`; without error,
every block's key has its Config saved.  When every block has listen type `proxy`,
`MakeServers` on the result for a fresh context makes one server per Config without panic. -/
theorem InspectServerBlocks_parameters (toLowerRune : Char → Char)
    (rangeOrder : List (String × configTokens) → List (String × configTokens))
    (hperm : ∀ m, (rangeOrder m).Perm m) (c : caddyContext) (serverBlocks : List ServerBlock) :
    InspectServerBlocks toLowerRune rangeOrder c serverBlocks ≠ .panicked
      ∧ ((∃ sb ∈ serverBlocks, keyRejected (blockKey toLowerRune sb.Keys)) →
          ∃ err c1, InspectServerBlocks toLowerRune rangeOrder c serverBlocks = .error err c1)
      ∧ ((∃ sb ∈ serverBlocks, (∀ k ∈ sb.Keys, plainKey toLowerRune k)
            ∧ (sb.Keys.length < 2
              ∨ (sb.Keys.head?.map (stringsToLower toLowerRune) = some "proxy"
                ∧ sb.Keys.length < 3))) →
          ∃ err c1, InspectServerBlocks toLowerRune rangeOrder c serverBlocks = .error err c1)
      ∧ (∃ (saved : List (String × configTokens)) (c1 : caddyContext),
          (InspectServerBlocks toLowerRune rangeOrder c serverBlocks).ctx = some c1
          ∧ c1.heap = c.heap ++ saved.map configOf
          ∧ c1.configs = c.configs ++ List.range' c.heap.length saved.length
          ∧ (∀ kv ∈ saved, (∃ sb ∈ serverBlocks, kv.1 = blockKey toLowerRune sb.Keys)
              ∧ 1 ≤ (configOf kv).Parameters.length
              ∧ (keyListenType kv.1 = "proxy" → 2 ≤ (configOf kv).Parameters.length))
          ∧ (∀ c2, InspectServerBlocks toLowerRune rangeOrder c serverBlocks = .ok c2 →
              ∀ sb ∈ serverBlocks, blockKey toLowerRune sb.Keys ∈ saved.map Prod.fst))
      ∧ (∀ c1, InspectServerBlocks toLowerRune rangeOrder newCaddyContext serverBlocks = .ok c1 →
          (∀ sb ∈ serverBlocks, keyListenType (blockKey toLowerRune sb.Keys) = "proxy") →
          ∃ servers, MakeServers c1 = some servers ∧ servers.length = c1.configs.length) := by
  refine ⟨?_, ?_, ?_, ?_, ?_⟩
  · obtain ⟨saved, c1, h1, _⟩ :=
      InspectServerBlocks_saved toLowerRune rangeOrder hperm c serverBlocks
    intro hp
    rw [hp] at h1
    exact Option.noConfusion h1
  · rintro ⟨sb, hsb, hrej⟩
    exact InspectServerBlocks_error_of_rejected toLowerRune rangeOrder hperm c serverBlocks
      sb hsb hrej
  · rintro ⟨sb, hsb, hplain, hfew⟩
    exact InspectServerBlocks_error_of_rejected toLowerRune rangeOrder hperm c serverBlocks
      sb hsb (keyRejected_plain toLowerRune sb.Keys hplain hfew)
  · obtain ⟨saved, c1, h1, h2, h3, h4, h5⟩ :=
      InspectServerBlocks_saved toLowerRune rangeOrder hperm c serverBlocks
    refine ⟨saved, c1, h1, h2, h3, ?_, h5⟩
    intro kv hkv
    obtain ⟨h6, h7⟩ := h4 kv hkv
    exact ⟨h6, (keyAccepted_length kv.1 h7).1, (keyAccepted_length kv.1 h7).2⟩
  · intro c1 hok hproxy
    obtain ⟨saved, c2, h1, h2, h3, h4, _⟩ :=
      InspectServerBlocks_saved toLowerRune rangeOrder hperm newCaddyContext serverBlocks
    rw [hok] at h1
    have hc : c1 = c2 := Option.some.inj h1
    subst hc
    have hheap : c1.heap = saved.map configOf := by rw [h2]; rfl
    have hcfg : c1.configs = List.range' 0 saved.length := by rw [h3]; rfl
    have hall : ∀ p ∈ c1.configs, ∃ cfg, c1.heap[p]? = some cfg ∧ 2 ≤ cfg.Parameters.length := by
      intro p hp
      rw [hcfg] at hp
      have hlt : p < saved.length := by
        have := List.mem_range'.mp hp
        omega
      refine ⟨configOf (saved.get ⟨p, hlt⟩), ?_, ?_⟩
      · rw [hheap, List.getElem?_map, List.getElem?_eq_getElem hlt]
        rfl
      · obtain ⟨⟨sb, hsb, hkey⟩, hacc⟩ := h4 _ (List.get_mem saved p hlt)
        apply (keyAccepted_length _ hacc).2
        rw [hkey]
        exact hproxy sb hsb
    obtain ⟨servers, hs1, hs2⟩ := makeServersLoop_ok c1.heap c1.configs [] hall
    exact ⟨servers, hs1, by rw [hs2]; simp⟩

theorem InspectServerBlocks_parameters_witness :
    (∀ m : List (String × configTokens), (id m).Perm m)
      ∧ InspectServerBlocks asciiToLower id newCaddyContext [exBlockProxy] = .ok exContextProxy
      ∧ (∀ sb ∈ [exBlockProxy], keyListenType (blockKey asciiToLower sb.Keys) = "proxy")
      ∧ ∃ servers, MakeServers exContextProxy = some servers
          ∧ servers.length = exContextProxy.configs.length :=
  ⟨fun m => List.Perm.refl m, by decide, by decide,
    (InspectServerBlocks_parameters asciiToLower id (fun m => List.Perm.refl m) newCaddyContext
      [exBlockProxy]).2.2.2.2 exContextProxy (by decide) (by decide)⟩

/-- C10, the code at the failing input. The block `echo :12345` supplies no remote address,
yet `InspectServerBlocks` returns no error for it and saves a Config with the single
Parameter `:12345`; `MakeServers` then reads `Parameters[1]` of that Config and panics with
an index out of range. -/
theorem MakeServers_panics_on_echo_block :
    InspectServerBlocks asciiToLower id newCaddyContext [exBlockEcho] = .ok exContextEcho
      ∧ exContextEcho.heap.map (fun cfg => cfg.Parameters) = [[":12345"]]
      ∧ MakeServers exContextEcho = none := by
  decide

/-- C9, the code at the failing input. `GetConfig` returns nil, not a new Config, for every
controller of a context that holds no Config; and for the accepted block
`proxy Localhost:12017 Backend:22017`, saved under its lower-cased key, `GetConfig` looks up
the key as written, returns nil, and `setupReplyAddrAliases` dereferences it and panics. -/
theorem GetConfig_returns_nil :
    (∀ c, GetConfig newCaddyContext c = none)
      ∧ InspectServerBlocks asciiToLower id newCaddyContext [exBlockMixed] = .ok exContextMixed
      ∧ GetConfig exContextMixed exControllerMixed = none
      ∧ setupReplyAddrAliases exContextMixed exControllerMixed = .panicked := by
  refine ⟨?_, by decide, by decide, by decide⟩
  intro c
  unfold GetConfig
  simp only [newCaddyContext, Map.get]
  split <;> rfl

/-- With keys already in lower case the lookup of `GetConfig` succeeds and the arguments of
the directive are appended to `ReplyAddrAliases`. -/
theorem setupReplyAddrAliases_lower_case :
    InspectServerBlocks asciiToLower id newCaddyContext [exBlockProxy] = .ok exContextProxy
      ∧ GetConfig exContextProxy exControllerProxy = some 0
      ∧ setupReplyAddrAliases exContextProxy exControllerProxy
        = .ok { exContextProxy with
            heap := [{ Parameters := [":12017", "198.51.100.7:22017"],
                       Tokens := [("reply-addr-alias",
                         ["reply-addr-alias", "198.51.100.8:22017"])],
                       ReplyAddrAliases := ["198.51.100.8:22017"] }] } := by
  decide

/-! ## A failed read of the listening socket -/

/-- C5, the code at the failing input. When `ReadFrom` fails and returns a nil address, as a
`*net.UDPConn` does, `ServePacket` closes the listening socket and then, instead of returning
the error, goes on to `addr.String()`, which panics. -/
theorem ServePacketIter_read_failure_nil_addr (env : Env) (sys : Sys) (buf : Payload)
    (n : Nat) (err : Error) :
    ServePacketIter env sys buf (.failure n none err)
      = .panicked { sys with trace := sys.trace ++ [Event.listenerClosed] } := by
  simp [ServePacketIter, ReadFrom]

/-- The same fall-through with a non-nil address: the failed read is treated as a datagram
of `buf[0:n]` from that address, here forwarded to the existing session. -/
theorem ServePacketIter_read_failure_forwards :
    ServePacketIter exEnv exSys [9, 9, 9, 9] (.failure 2 (some "203.0.113.5:5000") "read: closed")
      = .next { exSys with trace := [Event.listenerClosed, Event.written exRconn [9, 9]] }
          [9, 9, 9, 9] := by
  decide

end UDPProxy
